import Mathlib

/-!
Verification development for the NLP task-extraction core
(`src/backend/nlp/core/task_extraction.py` and
`src/backend/nlp/services/communication_processor.py`).

The Python code is shallowly embedded: Python floats are modelled as
rationals, Python exceptions as `Except`, dynamic dictionaries holding the
extracted task as association lists over a small dynamic-value type, and
the thread/async completion order of batch chunks as an explicit
permutation parameter.  External collaborators (the transformer inference
inside `BERTClassifier`/`TaskNERModel` and the `clean_text` normalizer,
which the specification places out of scope) are oracle functions bundled
in `Models`; the validation and orchestration code wrapped around them is
translated line by line from the source.
-/

namespace TaskNLP

/-- Python exception values relevant to the embedded code. -/
inductive PyErr where
  | valueError (msg : String)
  | keyError (msg : String)
  | runtimeError (msg : String)
deriving DecidableEq, Repr

/-- A small dynamic-value type for the entries of the Python dict
`extracted_task`: fields are `None` or strings, `confidence_scores` is a
dict of floats (modelled as rationals). -/
inductive PyVal where
  | pynone
  | pystr (s : String)
  | pydict (entries : List (String × ℚ))
deriving DecidableEq, Repr

/-- Python truthiness restricted to the values that can appear in a task
field: `None` and `""` are falsy, any other string is truthy
(`not extracted_task["title"]` in the source). -/
def pyTruthy : PyVal → Bool
  | .pynone => false
  | .pystr s => s ≠ ""
  | .pydict _ => true

/-- Characters removed by Python `str.strip()` with no argument. -/
def isPySpace (c : Char) : Bool :=
  c = ' ' || c = '\t' || c = '\n' || c = '\r' || c = Char.ofNat 11 || c = Char.ofNat 12

/-- `not text.strip()` in Python: the string is empty or all whitespace. -/
def pyStripEmpty (s : String) : Bool :=
  s.toList.all isPySpace

/-- `startsWithSeq pat l` holds when `pat` is a leading segment of `l`. -/
def startsWithSeq : List Char → List Char → Bool
  | [], _ => true
  | _ :: _, [] => false
  | p :: ps, c :: cs => p = c && startsWithSeq ps cs

/-- Occurrence search used to model Python `pat in s` on strings. -/
def containsSeq (pat : List Char) : List Char → Bool
  | [] => startsWithSeq pat []
  | c :: cs => startsWithSeq pat (c :: cs) || containsSeq pat cs

/-- Python substring containment `pat in s`. -/
def pyIn (pat s : String) : Bool :=
  containsSeq pat.toList s.toList

/-- Python `str.upper()` (character-wise, sufficient for entity labels). -/
def strUpper (s : String) : String :=
  ⟨s.data.map Char.toUpper⟩

/-- Association-list lookup (Python `dict` access / `in` test on keys). -/
def alookup {κ α : Type} [DecidableEq κ] (k : κ) : List (κ × α) → Option α
  | [] => none
  | (k2, v) :: rest => if k2 = k then some v else alookup k rest

/-- One entity returned by `TaskNERModel.extract_entities`
(`{"entity", "token", "confidence", "start", "end"}`). -/
structure EntityInfo where
  entity : String
  token : String
  confidence : ℚ
  startPos : Nat
  endPos : Nat
deriving DecidableEq, Repr

/-- Result of `BERTClassifier.classify`: the label (set to `None` when the
confidence is below the requested threshold) and the confidence. -/
structure ClassificationResult where
  label : Option String
  confidence : ℚ
deriving DecidableEq, Repr

/-- The dictionary returned by `TaskExtractor.extract_task`
(`{"task_info", "valid", "error", "final_confidence"}`). -/
structure ResultData where
  taskInfo : List (String × PyVal)
  valid : Bool
  error : String
  finalConfidence : ℚ
deriving DecidableEq, Repr

/-- External collaborators, out of scope for this core per the
specification: the text cleaner (keyed by format type) and the model
inference inside the intent classifier and the entity recognizer.  The
entity lists returned by `nerEntities` are the recognizer output after its
internal confidence filtering. -/
structure Models where
  cleanText : String → String → String
  clsLabel : String → String
  clsConfidence : String → ℚ
  nerEntities : String → List EntityInfo

/-! ## `_LRUCache` (task_extraction.py lines 14-60)

The `OrderedDict` is modelled as an association list whose head is the
least recently used entry and whose last element is the most recently
used one, matching `popitem(last=False)` eviction at the head and
re-insertion at the end. -/

structure LRUCache (β : Type) where
  capacity : Nat
  cacheMap : List (String × β)
deriving Repr, DecidableEq

/-- `_LRUCache.get`: on a miss return `None` and leave the map unchanged;
on a hit pop the entry and re-append it at the most-recently-used end. -/
def lruGet {β : Type} (c : LRUCache β) (k : String) : Option β × LRUCache β :=
  match alookup k c.cacheMap with
  | none => (none, c)
  | some v => (some v, ⟨c.capacity, (c.cacheMap.filter (fun p => p.1 ≠ k)) ++ [(k, v)]⟩)

/-- `_LRUCache.set`: pop an existing key, else when at capacity evict the
least-recently-used entry (`popitem(last=False)`; on an empty map this is
a `KeyError`, modelled as `none`), then insert at the end. -/
def lruSet {β : Type} (c : LRUCache β) (k : String) (v : β) : Option (LRUCache β) :=
  if (alookup k c.cacheMap).isSome then
    some ⟨c.capacity, (c.cacheMap.filter (fun p => p.1 ≠ k)) ++ [(k, v)]⟩
  else if c.capacity ≤ c.cacheMap.length then
    match c.cacheMap with
    | [] => none
    | _ :: rest => some ⟨c.capacity, rest ++ [(k, v)]⟩
  else
    some ⟨c.capacity, c.cacheMap ++ [(k, v)]⟩

/-- A cache operation issued by a client. -/
inductive LRUOp (β : Type) where
  | get (k : String)
  | set (k : String) (v : β)

/-- State transition of one cache operation; a `KeyError` raised by
`popitem` on an empty map leaves the state unchanged. -/
def lruStep {β : Type} (c : LRUCache β) : LRUOp β → LRUCache β
  | .get k => (lruGet c k).2
  | .set k v => (lruSet c k v).getD c

/-- Run a sequence of cache operations from a starting state. -/
def lruRun {β : Type} (c : LRUCache β) (ops : List (LRUOp β)) : LRUCache β :=
  ops.foldl lruStep c

/-- A fresh cache of the given capacity. -/
def lruEmpty (β : Type) (capacity : Nat) : LRUCache β := ⟨capacity, []⟩

/-! ## Collaborator wrappers

`BERTClassifier.classify` (bert_classifier.py lines 239-343) and
`TaskNERModel.extract_entities` (ner_model.py lines 166-266) are called by
`extract_task` with `use_cache=False`, so their internal result caches are
never consulted on that path; their input validation is repository code and
is embedded, while the transformer inference is the external oracle. -/

/-- The classification produced by a validation-passing `classify` call:
the model confidence, and the predicted label nulled when the confidence
falls below the threshold (steps 6-8 of `classify`). -/
def classOf (m : Models) (text : String) (thr : ℚ) : ClassificationResult :=
  ⟨if thr ≤ m.clsConfidence text then some (m.clsLabel text) else none,
   m.clsConfidence text⟩

/-- `BERTClassifier.classify(text, confidence_threshold, use_cache=False)`:
reject empty text and an out-of-range threshold, reject text shorter than
3 characters inside `preprocess`, then run inference and null the label
when the confidence falls below the threshold. -/
def bertClassify (m : Models) (text : String) (thr : ℚ) :
    Except PyErr ClassificationResult :=
  if pyStripEmpty text then
    .error (.valueError "Text must be a non-empty string for classification.")
  else if ¬ (0 < thr ∧ thr ≤ 1) then
    .error (.valueError "confidence_threshold must be between 0 and 1.")
  else if text.length < 3 then
    .error (.valueError "Text is too short to be processed by the BERT classifier.")
  else
    .ok (classOf m text thr)

/-- `TaskNERModel.extract_entities(text, confidence_threshold, use_cache=False)`:
empty or whitespace-only text yields `{"entities": []}` without error;
otherwise the recognizer (oracle) produces the entity list. -/
def nerExtractEntities (m : Models) (text : String) : List EntityInfo :=
  if pyStripEmpty text then [] else m.nerEntities text

/-! ## `TaskExtractor.extract_task` (task_extraction.py lines 155-285) -/

/-- The four optional task fields mutated by the entity-mapping loop. -/
structure Fields where
  title : Option String
  assignee : Option String
  deadline : Option String
  priority : Option String
deriving DecidableEq, Repr

/-- Truthiness of an optional string field (`not extracted_task[...]`). -/
def fieldTruthy : Option String → Bool
  | none => false
  | some s => s ≠ ""

/-- One iteration of the entity-mapping loop (lines 233-243): uppercase the
entity label and walk the `if`/`elif` chain, assigning the token to the
first field whose name occurs in the label and whose current value is
falsy. -/
def applyEntity (f : Fields) (e : EntityInfo) : Fields :=
  let label := strUpper e.entity
  let tokenVal := e.token
  if pyIn "TITLE" label ∧ ¬ fieldTruthy f.title then
    { f with title := some tokenVal }
  else if pyIn "ASSIGNEE" label ∧ ¬ fieldTruthy f.assignee then
    { f with assignee := some tokenVal }
  else if pyIn "DEADLINE" label ∧ ¬ fieldTruthy f.deadline then
    { f with deadline := some tokenVal }
  else if pyIn "PRIORITY" label ∧ ¬ fieldTruthy f.priority then
    { f with priority := some tokenVal }
  else f

/-- The entity-mapping loop over the recognizer output, starting from the
all-`None` dict literal of line 220. -/
def mapEntities (ents : List EntityInfo) : Fields :=
  ents.foldl applyEntity ⟨none, none, none, none⟩

/-- Convert an optional field to its dictionary value. -/
def optToPy : Option String → PyVal
  | none => .pynone
  | some s => .pystr s

/-- The `extracted_task` dictionary of lines 220-231 after the entity loop
and the description fallback: the six keys in literal order. -/
def mkTaskInfo (f : Fields) (desc : PyVal) (intentConf entityConf combinedConf : ℚ) :
    List (String × PyVal) :=
  [("title", optToPy f.title),
   ("description", desc),
   ("assignee", optToPy f.assignee),
   ("deadline", optToPy f.deadline),
   ("priority", optToPy f.priority),
   ("confidence_scores",
     .pydict [("intent_confidence", intentConf),
              ("entity_confidence", entityConf),
              ("combined_confidence", combinedConf)])]

/-- Required keys checked by `validate_task` (line 391), in source order. -/
def requiredFields : List String :=
  ["title", "description", "assignee", "deadline", "priority", "confidence_scores"]

/-- `TaskExtractor.validate_task` (lines 372-420): required-key check, type
checks on `title` and `confidence_scores`, range check on the combined
confidence, then the threshold check. -/
def validateTask (taskData : List (String × PyVal)) (thr : ℚ) : Bool × String × ℚ :=
  match requiredFields.find? (fun f => (alookup f taskData).isNone) with
  | some f => (false, "Missing required field: " ++ f, 0)
  | none =>
    let titleOk := match alookup "title" taskData with
      | some .pynone => true
      | some (.pystr _) => true
      | _ => false
    if titleOk = false then
      (false, "Field title must be a string or None.", 0)
    else
      match alookup "confidence_scores" taskData with
      | some (.pydict entries) =>
        let combinedConf := (alookup "combined_confidence" entries).getD 0
        if combinedConf < 0 ∨ 1 < combinedConf then
          (false, "combined_confidence score is out of valid range [0,1].", combinedConf)
        else if combinedConf < thr then
          (false, "Final confidence below threshold.", combinedConf)
        else
          (true, "", combinedConf)
      | _ => (false, "confidence_scores must be a dictionary.", 0)

/-- The mean entity confidence with default `0` that `extract_task`
computes in step 5 (`np.mean` over the recognizer output, `0.0` when
the entity list is empty). -/
def entityMean (ents : List EntityInfo) : ℚ :=
  if ents.isEmpty then 0
  else (ents.map (fun e => e.confidence)).sum / (ents.length : ℚ)

/-- The description fallback of lines 246-253: the loop never assigns the
description, so it is always derived from the classification label. -/
def descOf (lbl : Option String) : PyVal :=
  match lbl with
  | some l => .pystr ("Classified intent: " ++ l)
  | none => .pystr "No distinct classification label"

/-- A collaborator call recorded while `extract_task` runs, used to settle
where in the pipeline a rejection happens. -/
inductive CollabCall where
  | cleanCall (fmt text : String)
  | classifyCall (text : String)
  | nerCall (text : String)
deriving DecidableEq, Repr

/-- Steps 2-7 of `extract_task` (the non-cache path): clean, classify,
recognize entities, fuse confidence, map fields, fill the description,
validate.  Returns the trace of collaborator calls made alongside the
outcome; an exception from the classifier propagates unmodified. -/
def computeResult (m : Models) (thr : ℚ) (text fmt : String) :
    List CollabCall × Except PyErr ResultData :=
  let cleanedText := m.cleanText fmt text
  match bertClassify m cleanedText thr with
  | .error e => ([.cleanCall fmt text, .classifyCall cleanedText], .error e)
  | .ok classification =>
    let entitiesList := nerExtractEntities m cleanedText
    let intentConf := classification.confidence
    let entityConf := entityMean entitiesList
    let combinedConf := (intentConf + entityConf) / 2
    let taskInfo := mkTaskInfo (mapEntities entitiesList) (descOf classification.label)
      intentConf entityConf combinedConf
    let v := validateTask taskInfo thr
    ([.cleanCall fmt text, .classifyCall cleanedText, .nerCall cleanedText],
     .ok ⟨taskInfo, v.1, v.2.1, v.2.2⟩)

/-- Mutable state of a `TaskExtractor`: the result cache and the
configured confidence threshold. -/
structure TEState where
  cache : LRUCache ResultData
  thr : ℚ
deriving DecidableEq

/-- The cache fingerprint `f"extract_task::{format_type}::{text}"`. -/
def cacheKeyOf (fmt text : String) : String :=
  "extract_task::" ++ fmt ++ "::" ++ text

/-- `TaskExtractor.extract_task`: consult the cache when `use_cache` (the
hit moves the entry to most-recently-used), otherwise compute the result
and, when `use_cache`, store it under the fingerprint before returning it. -/
def extractTask (m : Models) (st : TEState) (text fmt : String) (useCache : Bool) :
    Except PyErr (ResultData × TEState) :=
  let key := cacheKeyOf fmt text
  let hit := if useCache then lruGet st.cache key else (none, st.cache)
  match hit.1 with
  | some r => .ok (r, ⟨hit.2, st.thr⟩)
  | none =>
    match (computeResult m st.thr text fmt).2 with
    | .error e => .error e
    | .ok r =>
      if useCache then
        match lruSet hit.2 key r with
        | none => .error (.keyError "dictionary is empty")
        | some c2 => .ok (r, ⟨c2, st.thr⟩)
      else
        .ok (r, ⟨hit.2, st.thr⟩)

/-- The collaborator-call trace of one `extract_task` invocation: empty on
a cache hit, otherwise the trace of the compute path. -/
def extractTaskTrace (m : Models) (st : TEState) (text fmt : String) (useCache : Bool) :
    List CollabCall :=
  let key := cacheKeyOf fmt text
  let hit := if useCache then lruGet st.cache key else (none, st.cache)
  match hit.1 with
  | some _ => []
  | none => (computeResult m st.thr text fmt).1

/-! ## `TaskExtractor.batch_extract_tasks` (task_extraction.py lines 287-370)

The coordinator is parametrized over the per-item function, exactly as the
specification describes it ("parametrized over any per-item function"); in
the source the per-item function is `self.extract_task`, whose returned
value for fixed collaborator outputs depends only on the text (the
idempotence theorem below).  The completion order of `as_completed` is an
explicit permutation of the chunk indices. -/

/-- The `chunker` generator (lines 330-332): contiguous chunks of at most
`size` elements, paired with their global start index.  Agrees with the
source for every `size ≥ 1` (`batch_size` is validated positive first). -/
def chunker (size : Nat) : Nat → List α → List (Nat × List α)
  | _, [] => []
  | start, x :: xs =>
    (start, x :: xs.take (size - 1)) :: chunker size (start + size) (xs.drop (size - 1))
termination_by _ l => l.length
decreasing_by
  simp only [List.length_drop, List.length_cons]
  omega

/-- `batch_worker` (lines 336-347): process the chunk sequentially,
pairing each result with its global index.  The loop body has no
exception handler, so the first raising item aborts the remainder of the
chunk and the exception propagates out of the worker. -/
def batchWorker (itemFn : String → Except PyErr ResultData) :
    Nat → List String → Except PyErr (List (Nat × ResultData))
  | _, [] => .ok []
  | idx, t :: ts =>
    match itemFn t with
    | .error e => .error e
    | .ok r =>
      match batchWorker itemFn (idx + 1) ts with
      | .error e => .error e
      | .ok rest => .ok ((idx, r) :: rest)

/-- The `as_completed`/`future.result()` loop (lines 356-358): gather the
chunk outputs in completion order; a failed future re-raises its
exception when its result is collected. -/
def collectAll : List (Except PyErr (List (Nat × ResultData))) →
    Except PyErr (List (Nat × ResultData))
  | [] => .ok []
  | x :: xs =>
    match x with
    | .error e => .error e
    | .ok l =>
      match collectAll xs with
      | .error e => .error e
      | .ok rest => .ok (l ++ rest)

/-- Lines 326 and 361-362: the pre-sized `results = [None] * len(texts)`
array, each collected pair written at its original global index. -/
def assemble (n : Nat) (pairs : List (Nat × α)) : List (Option α) :=
  pairs.foldl (fun acc p => acc.set p.1 (some p.2)) (List.replicate n none)

/-- The collected `(index, result)` pairs of one batch call when the chunk
futures complete in the order given by `order` (a permutation of the
chunk positions). -/
def batchCollect (itemFn : String → Except PyErr ResultData) (texts : List String)
    (batchSize : Nat) (order : List Nat) : Except PyErr (List (Nat × ResultData)) :=
  let futures := (chunker batchSize 0 texts).map (fun sc => batchWorker itemFn sc.1 sc.2)
  collectAll (order.filterMap (fun i => futures.get? i))

/-- `TaskExtractor.batch_extract_tasks`: validate `batch_size`, fan the
chunks out, collect the futures in completion order, and write each pair
into the pre-sized results array. -/
def batchExtractTasks (itemFn : String → Except PyErr ResultData) (texts : List String)
    (batchSize : Nat) (order : List Nat) : Except PyErr (List (Option ResultData)) :=
  if batchSize = 0 then
    .error (.valueError "Parameter batch_size must be a positive integer.")
  else
    match batchCollect itemFn texts batchSize order with
    | .error e => .error e
    | .ok pairs => .ok (assemble texts.length pairs)

/-! ## `CommunicationProcessor.process_communication`
(communication_processor.py lines 165-296)

One attempt runs the text processor, the entity extractor and
`extract_task`; any of them may raise.  The whole attempt body is the
oracle `attemptFn` (indexed by the 1-based attempt number); the retry
loop, the backoff arithmetic, the threshold warning and the error
aggregation around it are embedded from the source. -/

/-- The bundle returned by a successful attempt (step 9 of the source):
the processed text, the entity result, and the task extraction whose
`final_confidence` feeds the threshold check. -/
structure Bundle where
  processedTextOutput : String
  entityResult : List EntityInfo
  taskExtraction : ResultData
deriving DecidableEq, Repr

/-- The aggregated message of lines 292-294:
`"Failed to process communication after {max_attempts} attempts: {last_error}"`. -/
def aggMsg (maxAttempts : Nat) (lastErr : Option String) : String :=
  "Failed to process communication after " ++ toString maxAttempts ++
    " attempts: " ++ lastErr.getD "Unknown error"

/-- Decidable equality for `Except` values with decidable components. -/
instance exceptDecEq {ε α : Type} [DecidableEq ε] [DecidableEq α] :
    DecidableEq (Except ε α) := fun a b =>
  match a, b with
  | .ok x, .ok y =>
    if h : x = y then .isTrue (by rw [h]) else .isFalse (by intro hc; cases hc; exact h rfl)
  | .error x, .error y =>
    if h : x = y then .isTrue (by rw [h]) else .isFalse (by intro hc; cases hc; exact h rfl)
  | .ok _, .error _ => .isFalse (by intro hc; cases hc)
  | .error _, .ok _ => .isFalse (by intro hc; cases hc)

/-- Observable outcome of the attempt loop: the returned bundle or the
aggregated error, the backoff sleeps issued (in order), the number of
attempts made, and the below-threshold confidences that were only warned
about. -/
structure PCOutcome where
  result : Except String Bundle
  sleeps : List ℚ
  attemptsMade : Nat
  warnings : List ℚ
deriving DecidableEq, Repr

/-- The `while attempt < max_attempts` loop (lines 223-289), recursing on
the number of remaining attempts.  On success the bundle is returned at
once — a `final_confidence` below `max(entity_threshold, task_threshold)`
only appends a warning.  On an exception the loop records it as the last
error and, when attempts remain and `backoff_factor > 0`, sleeps
`backoff_factor * attempt` before retrying. -/
def pcAux (attemptFn : Nat → Except String Bundle) (maxAttempts : Nat)
    (backoff entityThr taskThr : ℚ) :
    Nat → Nat → Option String → List ℚ → PCOutcome
  | attemptNo, 0, lastErr, sleeps =>
    ⟨.error (aggMsg maxAttempts lastErr), sleeps, attemptNo, []⟩
  | attemptNo, remaining + 1, _, sleeps =>
    let n := attemptNo + 1
    match attemptFn n with
    | .ok b =>
      let warns :=
        if b.taskExtraction.finalConfidence < max entityThr taskThr then
          [b.taskExtraction.finalConfidence]
        else []
      ⟨.ok b, sleeps, n, warns⟩
    | .error e =>
      let sleeps2 :=
        if 0 < remaining ∧ 0 < backoff then sleeps ++ [backoff * (n : ℚ)] else sleeps
      pcAux attemptFn maxAttempts backoff entityThr taskThr n remaining (some e) sleeps2

/-- `CommunicationProcessor.process_communication`: input validation (a
`ValueError`, never retried), then the attempt loop. -/
def processCommunication (attemptFn : Nat → Except String Bundle) (maxAttempts : Nat)
    (backoff entityThr taskThr : ℚ) (text channel : String) :
    Except PyErr PCOutcome :=
  if pyStripEmpty text then
    .error (.valueError "process_communication requires a non-empty text string.")
  else if pyStripEmpty channel then
    .error (.valueError "process_communication requires a valid channel_type string.")
  else
    .ok (pcAux attemptFn maxAttempts backoff entityThr taskThr 0 maxAttempts none [])

/-! ## `CommunicationProcessor.batch_process` (lines 298-416)

Chunks are processed one after another (`asyncio.run` per chunk);
`asyncio.gather` preserves the order of the item tasks inside a chunk, so
the pair list is deterministic.  The per-item call is
`self.process_communication`, abstracted as `procFn`. -/

/-- A slot of the batch result list: the bundle dictionary or the
`{"error": str(e)}` marker produced by the handler in `process_one_item`. -/
inductive BPResult where
  | ok (b : PCOutcome)
  | err (msg : String)
deriving DecidableEq, Repr

/-- `process_one_item` (lines 362-376): run `process_communication`,
catching any exception into an error-marker result at the same index. -/
def processOneItem (procFn : String → Except String PCOutcome) (idx : Nat) (text : String) :
    Nat × BPResult :=
  match procFn text with
  | .ok r => (idx, .ok r)
  | .error e => (idx, .err e)

/-- `process_chunk_maps` (lines 379-392): one `process_one_item` task per
chunk element, gathered in order with the global indices `start_idx + i`. -/
def processChunk (procFn : String → Except String PCOutcome) :
    Nat → List String → List (Nat × BPResult)
  | _, [] => []
  | idx, t :: ts => processOneItem procFn idx t :: processChunk procFn (idx + 1) ts

/-- `CommunicationProcessor.batch_process`: validate the inputs, compute
`effective_batch_size = min(batch_size, max(len(texts), 1))`, process the
chunks sequentially, and write every `(index, result)` pair into the
pre-sized results array. -/
def batchProcess (procFn : String → Except String PCOutcome) (texts : List String)
    (channelType : String) (batchSize : Nat) : Except PyErr (List (Option BPResult)) :=
  if pyStripEmpty channelType then
    .error (.valueError "Invalid channel_type for batch processing.")
  else if batchSize = 0 then
    .error (.valueError "batch_size must be a positive integer.")
  else
    let effective := min batchSize (max texts.length 1)
    let pairs := ((chunker effective 0 texts).map
      (fun sc => processChunk procFn sc.1 sc.2)).flatten
    .ok (assemble texts.length pairs)

/-! ## Reference semantics of the result cache (claim about aliasing)

`extract_task` stores `result_data` in the cache and returns the very
same dictionary object.  To reason about mutation through the returned
reference, this variant allocates each computed `ResultData` in a store
(addresses are indices) and lets the cache hold addresses, mirroring
Python object references. -/

/-- Mutate the store cell at an address (a no-op out of range). -/
def mutateAt (store : List ResultData) (a : Nat) (f : ResultData → ResultData) :
    List ResultData :=
  match store.get? a with
  | some r => store.set a (f r)
  | none => store

/-- `extract_task` under reference semantics: a cache hit returns the
stored address; a miss allocates the computed dictionary at a fresh
address, caches that address, and returns it. -/
def extractTaskRef (m : Models) (cache : LRUCache Nat) (store : List ResultData)
    (thr : ℚ) (text fmt : String) (useCache : Bool) :
    Except PyErr (Nat × LRUCache Nat × List ResultData) :=
  let key := cacheKeyOf fmt text
  let hit := if useCache then lruGet cache key else (none, cache)
  match hit.1 with
  | some a => .ok (a, hit.2, store)
  | none =>
    match (computeResult m thr text fmt).2 with
    | .error e => .error e
    | .ok r =>
      let a := store.length
      let store2 := store ++ [r]
      if useCache then
        match lruSet hit.2 key a with
        | none => .error (.keyError "dictionary is empty")
        | some c2 => .ok (a, c2, store2)
      else
        .ok (a, hit.2, store2)

/-! ## Accessors and specification-side functions used by the theorems -/

/-- The `ResultData` returned by a non-raising `extract_task` call. -/
def okResult (x : Except PyErr (ResultData × TEState)) : Option ResultData :=
  x.toOption.map Prod.fst

/-- The combined confidence stored in `task_info.confidence_scores`. -/
def storedCombined (r : ResultData) : ℚ :=
  match alookup "confidence_scores" r.taskInfo with
  | some (.pydict entries) => (alookup "combined_confidence" entries).getD 0
  | _ => 0

/-- Clamping into `[lo, hi]`, as the specification formula demands. -/
def clampQ (x lo hi : ℚ) : ℚ := max lo (min x hi)

/-- The value a successful compute path of `extract_task` returns,
written out as a function of the collaborator outputs. -/
def computedOf (m : Models) (thr : ℚ) (text fmt : String) : ResultData :=
  let cleaned := m.cleanText fmt text
  let cls := classOf m cleaned thr
  let ents := nerExtractEntities m cleaned
  let intentConf := cls.confidence
  let entityConf := entityMean ents
  let combinedConf := (intentConf + entityConf) / 2
  let taskInfo := mkTaskInfo (mapEntities ents) (descOf cls.label)
    intentConf entityConf combinedConf
  let v := validateTask taskInfo thr
  ⟨taskInfo, v.1, v.2.1, v.2.2⟩

/-- An entity whose uppercased label contains `"TITLE"`. -/
def titleMatch (e : EntityInfo) : Bool :=
  pyIn "TITLE" (strUpper e.entity)

/-- Specification-side value of the title field after the mapping loop:
the token of the first `TITLE`-matching entity with a non-empty token; the
empty string when only empty-token matches exist; `None` when no entity
matches. -/
def specTitle (ents : List EntityInfo) : Option String :=
  match ents.find? (fun e => titleMatch e && e.token ≠ "") with
  | some e => some e.token
  | none => if ents.any titleMatch then some "" else none

/-- The `(global index, result)` pairs a chunk worker produces when every
item succeeds with value `g t`. -/
def enumFromWith (g : String → ResultData) : Nat → List String → List (Nat × ResultData)
  | _, [] => []
  | i, t :: ts => (i, g t) :: enumFromWith g (i + 1) ts

/-- The `capacity` most-recently-used entries after inserting the keys of
`ks` in order with values `f k`: the last `capacity` keys of `ks`. -/
def window (cap : Nat) (f : String → β) (ks : List String) : List (String × β) :=
  (ks.drop (ks.length - cap)).map (fun k => (k, f k))

/-- The linear-backoff delays issued after the failed attempts
`n0 + 1, …, n0 + failCount`. -/
def linearSleepsFrom (backoff : ℚ) (n0 failCount : Nat) : List ℚ :=
  (List.range failCount).map (fun i => backoff * ((n0 + i + 1 : Nat) : ℚ))

/-! ## Concrete collaborator instances used to evaluate the code on
explicit inputs -/

/-- Identity cleaner, a confident classifier, no entities. -/
def mId : Models :=
  { cleanText := fun _ t => t
    clsLabel := fun _ => "TASK_REQUEST"
    clsConfidence := fun _ => 1
    nerEntities := fun _ => [] }

/-- A classifier reporting confidence `3`, outside `[0, 1]`. -/
def mOver : Models :=
  { cleanText := fun _ t => t
    clsLabel := fun _ => "TASK_REQUEST"
    clsConfidence := fun _ => 3
    nerEntities := fun _ => [] }

/-- A recognizer returning two `TITLE` entities, the first with an empty
token. -/
def mDup : Models :=
  { cleanText := fun _ t => t
    clsLabel := fun _ => "TASK_REQUEST"
    clsConfidence := fun _ => 1
    nerEntities := fun _ => [⟨"TITLE", "", 1, 0, 1⟩, ⟨"TITLE", "foo", 1, 1, 2⟩] }

/-- The result `extract_task` computes for `mId` on `("hello", "chat")`
with threshold `1/2`. -/
def rW : ResultData :=
  ⟨[("title", .pynone),
    ("description", .pystr "Classified intent: TASK_REQUEST"),
    ("assignee", .pynone),
    ("deadline", .pynone),
    ("priority", .pynone),
    ("confidence_scores",
      .pydict [("intent_confidence", 1), ("entity_confidence", 0),
               ("combined_confidence", 1/2)])],
   true, "", 1/2⟩

/-- A placeholder extraction result for parametric batch runs. -/
def rStub : ResultData := ⟨[], true, "", 0⟩

/-- A per-item function that raises exactly on the item `"t2"`. -/
def itemErr2 : String → Except PyErr ResultData :=
  fun t => if t = "t2" then .error (.runtimeError "boom") else .ok rStub

/-- A placeholder bundle and outcome for parametric batch runs. -/
def bStub : Bundle := ⟨"p", [], rStub⟩

/-- A placeholder `process_communication` outcome. -/
def pcStub : PCOutcome := ⟨.ok bStub, [], 1, []⟩

/-- A `process_communication` stand-in that raises exactly on `"t2"`. -/
def procErr2 : String → Except String PCOutcome :=
  fun t => if t = "t2" then .error "boom" else .ok pcStub

/-- An attempt oracle failing on attempts 1 and 2 and succeeding on 3. -/
def attempt3 : Nat → Except String Bundle :=
  fun n => if n < 3 then .error ("fail" ++ toString n) else .ok bStub

/-- A fresh extractor state: empty cache of capacity 4, threshold `1/2`. -/
def stW : TEState := ⟨lruEmpty ResultData 4, 1/2⟩

/-- The extractor state after `mId` processes `("hello", "chat")` with
caching from `stW`. -/
def stW2 : TEState := ⟨⟨4, [(cacheKeyOf "chat" "hello", rW)]⟩, 1/2⟩

/-! # Helper lemmas -/

theorem alookup_eq_none_iff {κ α : Type} [DecidableEq κ] (k : κ) (l : List (κ × α)) :
    alookup k l = none ↔ k ∉ l.map Prod.fst := by
  induction l with
  | nil => simp [alookup]
  | cons p rest ih =>
    obtain ⟨k2, v⟩ := p
    simp only [List.map_cons, List.mem_cons, alookup]
    by_cases h : k2 = k
    · simp [h]
    · simp [h, ih]
      intro _ hc
      exact h hc.symm

theorem alookup_mem {κ α : Type} [DecidableEq κ] {k : κ} {v : α} {l : List (κ × α)}
    (h : alookup k l = some v) : (k, v) ∈ l := by
  induction l with
  | nil => simp [alookup] at h
  | cons p rest ih =>
    obtain ⟨k2, w⟩ := p
    by_cases hk : k2 = k
    · simp [alookup, hk] at h
      simp [hk, h]
    · simp [alookup, hk] at h
      exact List.mem_cons_of_mem _ (ih h)

theorem alookup_of_mem {κ α : Type} [DecidableEq κ] {k : κ} {v : α} {l : List (κ × α)}
    (nd : (l.map Prod.fst).Nodup) (hm : (k, v) ∈ l) : alookup k l = some v := by
  induction l with
  | nil => simp at hm
  | cons p rest ih =>
    obtain ⟨k2, w⟩ := p
    simp only [List.map_cons, List.nodup_cons] at nd
    rcases List.mem_cons.mp hm with h | h
    · cases h
      simp [alookup]
    · have hk : k2 ≠ k := by
        intro he
        exact nd.1 (he ▸ (List.mem_map.mpr ⟨(k, v), h, rfl⟩))
      simp [alookup, hk, ih nd.2 h]

theorem alookup_perm {κ α : Type} [DecidableEq κ] {l₁ l₂ : List (κ × α)}
    (h : l₁.Perm l₂) (nd : (l₁.map Prod.fst).Nodup) (k : κ) :
    alookup k l₁ = alookup k l₂ := by
  have nd₂ : (l₂.map Prod.fst).Nodup := ((h.map Prod.fst).nodup_iff).mp nd
  cases h₁ : alookup k l₁ with
  | none =>
    have hk := (alookup_eq_none_iff k l₁).mp h₁
    have : k ∉ l₂.map Prod.fst := fun hc => hk ((h.map Prod.fst).mem_iff.mpr hc)
    exact ((alookup_eq_none_iff k l₂).mpr this).symm
  | some v =>
    exact (alookup_of_mem nd₂ (h.mem_iff.mp (alookup_mem h₁))).symm

theorem alookup_append_self {κ α : Type} [DecidableEq κ] {k : κ} {l : List (κ × α)}
    (h : alookup k l = none) (v : α) : alookup k (l ++ [(k, v)]) = some v := by
  induction l with
  | nil => simp [alookup]
  | cons p rest ih =>
    obtain ⟨k2, w⟩ := p
    by_cases hk : k2 = k
    · simp [alookup, hk] at h
    · simp [alookup, hk] at h ⊢
      exact ih h

theorem alookup_filter_self {κ α : Type} [DecidableEq κ] (k : κ) (l : List (κ × α)) (v : α) :
    alookup k ((l.filter (fun p => p.1 ≠ k)) ++ [(k, v)]) = some v := by
  refine alookup_append_self ?_ v
  rw [alookup_eq_none_iff]
  intro hc
  obtain ⟨p, hp, hpk⟩ := List.mem_map.mp hc
  have := List.of_mem_filter hp
  simp [hpk] at this

theorem storedCombined_mk (f : Fields) (d : PyVal) (i e c : ℚ) (b : Bool) (s : String) (q : ℚ) :
    storedCombined ⟨mkTaskInfo f d i e c, b, s, q⟩ = c := by
  simp [storedCombined, mkTaskInfo, alookup]

theorem validateTask_mk (f : Fields) (s : String) (i e c thr : ℚ) :
    validateTask (mkTaskInfo f (.pystr s) i e c) thr =
      if c < 0 ∨ 1 < c then
        (false, "combined_confidence score is out of valid range [0,1].", c)
      else if c < thr then
        (false, "Final confidence below threshold.", c)
      else (true, "", c) := by
  cases ht : f.title <;>
    simp [validateTask, mkTaskInfo, requiredFields, alookup, List.find?, optToPy, ht]

theorem bertClassify_ok {m : Models} {text : String} {thr : ℚ} {cr : ClassificationResult}
    (h : bertClassify m text thr = .ok cr) : cr = classOf m text thr := by
  unfold bertClassify at h
  split at h
  · exact absurd h (by simp)
  · split at h
    · exact absurd h (by simp)
    · split at h
      · exact absurd h (by simp)
      · exact (Except.ok.injEq _ _ ▸ h).symm

theorem computeResult_ok {m : Models} {thr : ℚ} {text fmt : String} {r : ResultData}
    (h : (computeResult m thr text fmt).2 = .ok r) : r = computedOf m thr text fmt := by
  unfold computeResult at h
  cases hc : bertClassify m (m.cleanText fmt text) thr with
  | error e => simp [hc] at h
  | ok cr =>
    simp only [hc] at h
    rw [bertClassify_ok hc] at h
    unfold computedOf
    simp only [Except.ok.injEq] at h
    exact h.symm

theorem extractTask_ok_of_empty {m : Models} {st : TEState} {text fmt : String} {u : Bool}
    {r : ResultData} {st2 : TEState} (hemp : st.cache.cacheMap = [])
    (h : extractTask m st text fmt u = .ok (r, st2)) :
    r = computedOf m st.thr text fmt := by
  have hget : lruGet st.cache (cacheKeyOf fmt text) = (none, st.cache) := by
    simp [lruGet, hemp, alookup]
  unfold extractTask at h
  cases hco : (computeResult m st.thr text fmt).2 with
  | error e =>
    cases u <;> simp [hget, hco] at h
  | ok r' =>
    have hr' := computeResult_ok hco
    cases u with
    | false =>
      simp [hget, hco] at h
      exact h.1 ▸ hr'
    | true =>
      simp only [hget, if_true] at h
      cases hset : lruSet st.cache (cacheKeyOf fmt text) r' with
      | none => simp [hco, hset] at h
      | some c2 =>
        simp [hco, hset] at h
        exact h.1 ▸ hr'

theorem sum_bounds (l : List ℚ) (h : ∀ x ∈ l, 0 ≤ x ∧ x ≤ 1) :
    0 ≤ l.sum ∧ l.sum ≤ (l.length : ℚ) := by
  induction l with
  | nil => simp
  | cons x rest ih =>
    have hx := h x (List.mem_cons_self x rest)
    have hr := ih (fun y hy => h y (List.mem_cons_of_mem x hy))
    simp only [List.sum_cons, List.length_cons]
    push_cast
    constructor <;> linarith [hx.1, hx.2, hr.1, hr.2]

theorem entityMean_bounds (ents : List EntityInfo)
    (h : ∀ e ∈ ents, 0 ≤ e.confidence ∧ e.confidence ≤ 1) :
    0 ≤ entityMean ents ∧ entityMean ents ≤ 1 := by
  unfold entityMean
  by_cases he : ents.isEmpty
  · simp [he]
  · simp only [he, Bool.false_eq_true, if_false]
    have hlen : 0 < (ents.length : ℚ) := by
      have : ents ≠ [] := fun hc => he (by simp [hc])
      have : 0 < ents.length := List.length_pos.mpr this
      exact_mod_cast this
    have hs := sum_bounds (ents.map (fun e => e.confidence)) (by
      intro x hx
      obtain ⟨e, he', rfl⟩ := List.mem_map.mp hx
      exact h e he')
    rw [List.length_map] at hs
    constructor
    · exact div_nonneg hs.1 (le_of_lt hlen)
    · rw [div_le_one hlen]
      exact hs.2

/-- Concrete run: `mId` on `("hello", "chat")` with caching computes `rW`
and stores it under the fingerprint. -/
theorem extract_mId_run : extractTask mId stW "hello" "chat" true = .ok (rW, stW2) := by
  simp [extractTask, mId, stW, stW2, computeResult, bertClassify, classOf,
    nerExtractEntities, cacheKeyOf, lruEmpty, lruGet, lruSet, alookup, entityMean,
    mapEntities, mkTaskInfo, optToPy, descOf, validateTask, requiredFields,
    List.find?, rW,
    show pyStripEmpty "hello" = false from by decide,
    show ¬ ("hello".length < 3) from by decide]
  norm_num
  decide

/-! # Claim C1 -/

/-- C1, as amended: the combined confidence that `extract_task` stores is
the unclamped average `(intent_confidence + mean(entity_confidences,
default 0)) / 2`; it lies in `[0, 1]` whenever the collaborator
confidences do, but the code applies no clamp, so the bound is not
guaranteed for arbitrary collaborator outputs. -/
theorem c1_combined_confidence (m : Models) (st : TEState) (text fmt : String)
    (u : Bool) (r : ResultData) (st2 : TEState)
    (hemp : st.cache.cacheMap = [])
    (h : extractTask m st text fmt u = .ok (r, st2)) :
    storedCombined r =
      (m.clsConfidence (m.cleanText fmt text) +
        entityMean (nerExtractEntities m (m.cleanText fmt text))) / 2 ∧
    ((0 ≤ m.clsConfidence (m.cleanText fmt text) ∧
        m.clsConfidence (m.cleanText fmt text) ≤ 1 ∧
        (∀ e ∈ nerExtractEntities m (m.cleanText fmt text),
          0 ≤ e.confidence ∧ e.confidence ≤ 1)) →
      0 ≤ storedCombined r ∧ storedCombined r ≤ 1) := by
  have hr := extractTask_ok_of_empty hemp h
  have hsc : storedCombined r =
      (m.clsConfidence (m.cleanText fmt text) +
        entityMean (nerExtractEntities m (m.cleanText fmt text))) / 2 := by
    rw [hr]
    unfold computedOf
    simp only [storedCombined_mk, classOf]
  refine ⟨hsc, ?_⟩
  rintro ⟨hi0, hi1, hent⟩
  have hb := entityMean_bounds _ hent
  rw [hsc]
  constructor <;> linarith [hb.1, hb.2]

/-- C1 counterexample: with a classifier reporting confidence `3` and no
entities, `extract_task` stores a combined confidence of `3/2`, while the
claimed formula clamps to `1`; the claimed bound
`combined_confidence ≤ 1` fails. -/
theorem c1_counterexample :
    (okResult (extractTask mOver stW "hello" "chat" true)).map storedCombined
        = some (3/2) ∧
    clampQ ((3 + 0) / 2) 0 1 = 1 ∧
    (3/2 : ℚ) ≠ clampQ ((3 + 0) / 2) 0 1 ∧
    ¬ ((3/2 : ℚ) ≤ 1) := by
  refine ⟨?_, by norm_num [clampQ], by norm_num [clampQ], by norm_num⟩
  simp [extractTask, mOver, stW, computeResult, bertClassify, classOf,
    nerExtractEntities, cacheKeyOf, lruEmpty, lruGet, lruSet, alookup, entityMean,
    mapEntities, mkTaskInfo, optToPy, descOf, validateTask, requiredFields,
    List.find?, okResult, storedCombined, Except.toOption,
    show pyStripEmpty "hello" = false from by decide,
    show ¬ ("hello".length < 3) from by decide]
  norm_num
  simp [alookup]

/-- C1 witness: the amended statement evaluated on the concrete run of
`mId` over `("hello", "chat")`. -/
theorem c1_witness :
    storedCombined rW =
      (mId.clsConfidence (mId.cleanText "chat" "hello") +
        entityMean (nerExtractEntities mId (mId.cleanText "chat" "hello"))) / 2 ∧
    ((0 ≤ mId.clsConfidence (mId.cleanText "chat" "hello") ∧
        mId.clsConfidence (mId.cleanText "chat" "hello") ≤ 1 ∧
        (∀ e ∈ nerExtractEntities mId (mId.cleanText "chat" "hello"),
          0 ≤ e.confidence ∧ e.confidence ≤ 1)) →
      0 ≤ storedCombined rW ∧ storedCombined rW ≤ 1) :=
  c1_combined_confidence mId stW "hello" "chat" true rW stW2 rfl extract_mId_run

/-! # Claim C4 -/

/-- C4, as amended: empty or whitespace-only text makes `extract_task`
raise a `ValueError`, but the rejection is performed inside the
`IntentClassifier.classify` collaborator call (which validates non-empty
input), not by `extract_task` before that call: the classifier call is
made on the cleaned text. -/
theorem c4_empty_text_rejected (m : Models) (st : TEState) (text fmt : String) (u : Bool)
    (hemp : st.cache.cacheMap = [])
    (hws : pyStripEmpty (m.cleanText fmt text) = true) :
    extractTask m st text fmt u =
      .error (.valueError "Text must be a non-empty string for classification.") ∧
    CollabCall.classifyCall (m.cleanText fmt text) ∈ extractTaskTrace m st text fmt u := by
  have hget : lruGet st.cache (cacheKeyOf fmt text) = (none, st.cache) := by
    simp [lruGet, hemp, alookup]
  unfold extractTask extractTaskTrace
  cases u <;> simp [hget, computeResult, bertClassify, hws]

/-- C4 counterexample: `extract_task("", "chat", use_cache := true)` does
raise a `ValueError`, but the trace shows the classifier was invoked on
the empty cleaned text — the rejection does not happen before the
classifier call, contradicting the claim. -/
theorem c4_counterexample :
    extractTask mId stW "" "chat" true =
      .error (.valueError "Text must be a non-empty string for classification.") ∧
    CollabCall.classifyCall "" ∈ extractTaskTrace mId stW "" "chat" true := by
  constructor <;>
    simp [extractTask, extractTaskTrace, mId, stW, lruEmpty, lruGet, alookup,
      cacheKeyOf, computeResult, bertClassify,
      show pyStripEmpty "" = true from by decide]

/-- C4 witness: the amended statement evaluated at whitespace-only
input. -/
theorem c4_witness :
    extractTask mId stW " " "chat" true =
      .error (.valueError "Text must be a non-empty string for classification.") ∧
    CollabCall.classifyCall (mId.cleanText "chat" " ") ∈
      extractTaskTrace mId stW " " "chat" true :=
  c4_empty_text_rejected mId stW " " "chat" true rfl (by decide)

/-! # Claim C10 -/

/-- C10: every `task_info` computed by `extract_task` carries all six
required keys, a dictionary under `confidence_scores`, and a non-`None`
string description; hence `validate_task`'s missing-field and wrong-type
branches are unreachable for pipeline-produced tasks, and the `valid`
flag is `false` exactly when the combined confidence is outside `[0, 1]`
or below the configured threshold. -/
theorem c10_validate_shape (m : Models) (st : TEState) (text fmt : String) (u : Bool)
    (r : ResultData) (st2 : TEState)
    (hemp : st.cache.cacheMap = [])
    (h : extractTask m st text fmt u = .ok (r, st2)) :
    (∀ k ∈ requiredFields, (alookup k r.taskInfo).isSome) ∧
    (∃ entries, alookup "confidence_scores" r.taskInfo = some (.pydict entries)) ∧
    (∃ s, alookup "description" r.taskInfo = some (.pystr s)) ∧
    (r.valid = true ↔
      (0 ≤ storedCombined r ∧ storedCombined r ≤ 1 ∧ st.thr ≤ storedCombined r)) ∧
    (r.error = "" ∨
      r.error = "combined_confidence score is out of valid range [0,1]." ∨
      r.error = "Final confidence below threshold.") := by
  have hr := extractTask_ok_of_empty hemp h
  subst hr
  simp only [computedOf]
  obtain ⟨lbl, hl⟩ : ∃ s, descOf (classOf m (m.cleanText fmt text) st.thr).label = .pystr s := by
    cases (classOf m (m.cleanText fmt text) st.thr).label <;> simp [descOf]
  rw [hl]
  rw [validateTask_mk]
  refine ⟨?_, ?_, ?_, ?_, ?_⟩
  · intro k hk
    simp only [requiredFields] at hk
    simp only [List.mem_cons, List.mem_singleton] at hk
    rcases hk with rfl | rfl | rfl | rfl | rfl | rfl | hk
    · simp [mkTaskInfo, alookup]
    · simp [mkTaskInfo, alookup]
    · simp [mkTaskInfo, alookup]
    · simp [mkTaskInfo, alookup]
    · simp [mkTaskInfo, alookup]
    · simp [mkTaskInfo, alookup]
    · simp at hk
  · refine ⟨[("intent_confidence", (classOf m (m.cleanText fmt text) st.thr).confidence),
      ("entity_confidence", entityMean (nerExtractEntities m (m.cleanText fmt text))),
      ("combined_confidence",
        ((classOf m (m.cleanText fmt text) st.thr).confidence +
          entityMean (nerExtractEntities m (m.cleanText fmt text))) / 2)], ?_⟩
    simp [mkTaskInfo, alookup]
  · exact ⟨lbl, by simp [mkTaskInfo, alookup]⟩
  · rw [storedCombined_mk]
    split_ifs with h1 h2
    · simp only [Bool.false_eq_true, false_iff]
      rintro ⟨ha, hb, -⟩
      rcases h1 with h1 | h1 <;> linarith
    · simp only [Bool.false_eq_true, false_iff]
      rintro ⟨-, -, hd⟩
      linarith
    · simp only [true_iff]
      push_neg at h1
      push_neg at h2
      exact ⟨by linarith [h1.1], by linarith [h1.2], by linarith⟩
  · split_ifs <;> simp

/-- C10 witness: the statement evaluated on the concrete run of `mId`
over `("hello", "chat")`. -/
theorem c10_witness :
    (∀ k ∈ requiredFields, (alookup k rW.taskInfo).isSome) ∧
    (∃ entries, alookup "confidence_scores" rW.taskInfo = some (.pydict entries)) ∧
    (∃ s, alookup "description" rW.taskInfo = some (.pystr s)) ∧
    (rW.valid = true ↔
      (0 ≤ storedCombined rW ∧ storedCombined rW ≤ 1 ∧ stW.thr ≤ storedCombined rW)) ∧
    (rW.error = "" ∨
      rW.error = "combined_confidence score is out of valid range [0,1]." ∨
      rW.error = "Final confidence below threshold.") :=
  c10_validate_shape mId stW "hello" "chat" true rW stW2 rfl extract_mId_run

/-! # Claim C7 -/

/-- After a successful cached `extract_task` call, the returned result sits
in the cache under the fingerprint (both on the compute path, which stores
it, and on a hit, which refreshes it). -/
theorem extractTask_stores {m : Models} {st : TEState} {text fmt : String}
    {r1 : ResultData} {st1 : TEState}
    (h : extractTask m st text fmt true = .ok (r1, st1)) :
    alookup (cacheKeyOf fmt text) st1.cache.cacheMap = some r1 := by
  unfold extractTask at h
  simp only [if_true] at h
  cases hg : alookup (cacheKeyOf fmt text) st.cache.cacheMap with
  | some v =>
    simp only [lruGet, hg] at h
    simp only [Except.ok.injEq, Prod.mk.injEq] at h
    obtain ⟨hr, hst⟩ := h
    rw [← hst]
    simp only [← hr]
    exact alookup_filter_self _ _ _
  | none =>
    simp only [lruGet, hg] at h
    cases hco : (computeResult m st.thr text fmt).2 with
    | error e => simp [hco] at h
    | ok r' =>
      simp only [hco] at h
      cases hset : lruSet st.cache (cacheKeyOf fmt text) r' with
      | none => simp [hset] at h
      | some c2 =>
        simp only [hset] at h
        simp only [Except.ok.injEq, Prod.mk.injEq] at h
        obtain ⟨hr, hst⟩ := h
        rw [← hst, ← hr]
        rw [lruSet] at hset
        rw [if_neg (by rw [hg]; simp)] at hset
        by_cases hcap : st.cache.capacity ≤ st.cache.cacheMap.length
        · rw [if_pos hcap] at hset
          cases hmap : st.cache.cacheMap with
          | nil => rw [hmap] at hset; simp at hset
          | cons p rest =>
            rw [hmap] at hset
            simp only [Option.some.injEq] at hset
            rw [← hset]
            have hrest : alookup (cacheKeyOf fmt text) rest = none := by
              rw [hmap] at hg
              revert hg
              simp only [alookup]
              split
              · intro hc; exact absurd hc (by simp)
              · exact id
            exact alookup_append_self hrest r'
        · rw [if_neg hcap] at hset
          simp only [Option.some.injEq] at hset
          rw [← hset]
          exact alookup_append_self hg r'

/-- C7: for fixed collaborator outputs, a successful cached call stores
its result under the fingerprint, and an immediately repeated call is a
cache hit returning the identical `ExtractionResult`. -/
theorem c7_idempotence (m : Models) (st : TEState) (text fmt : String)
    (r1 : ResultData) (st1 : TEState)
    (h : extractTask m st text fmt true = .ok (r1, st1)) :
    alookup (cacheKeyOf fmt text) st1.cache.cacheMap = some r1 ∧
    extractTask m st1 text fmt true =
      .ok (r1, ⟨(lruGet st1.cache (cacheKeyOf fmt text)).2, st1.thr⟩) := by
  have hl := extractTask_stores h
  refine ⟨hl, ?_⟩
  unfold extractTask
  simp only [if_true]
  simp [lruGet, hl]

/-- C7 witness: idempotence evaluated on the concrete run of `mId` over
`("hello", "chat")`. -/
theorem c7_witness :
    alookup (cacheKeyOf "chat" "hello") stW2.cache.cacheMap = some rW ∧
    extractTask mId stW2 "hello" "chat" true =
      .ok (rW, ⟨(lruGet stW2.cache (cacheKeyOf "chat" "hello")).2, stW2.thr⟩) :=
  c7_idempotence mId stW "hello" "chat" rW stW2 extract_mId_run

/-! # Claim C8 -/

theorem applyEntity_title_of_truthy {f : Fields} {e : EntityInfo}
    (h : fieldTruthy f.title = true) : (applyEntity f e).title = f.title := by
  simp only [applyEntity]
  split_ifs with h1 h2 h3 h4 <;> simp_all

theorem applyEntity_assignee_of_truthy {f : Fields} {e : EntityInfo}
    (h : fieldTruthy f.assignee = true) : (applyEntity f e).assignee = f.assignee := by
  simp only [applyEntity]
  split_ifs with h1 h2 h3 h4 <;> simp_all

theorem applyEntity_deadline_of_truthy {f : Fields} {e : EntityInfo}
    (h : fieldTruthy f.deadline = true) : (applyEntity f e).deadline = f.deadline := by
  simp only [applyEntity]
  split_ifs with h1 h2 h3 h4 <;> simp_all

theorem applyEntity_priority_of_truthy {f : Fields} {e : EntityInfo}
    (h : fieldTruthy f.priority = true) : (applyEntity f e).priority = f.priority := by
  simp only [applyEntity]
  split_ifs with h1 h2 h3 h4 <;> simp_all

theorem applyEntity_title_of_not_match {f : Fields} {e : EntityInfo}
    (h : titleMatch e = false) : (applyEntity f e).title = f.title := by
  simp only [applyEntity]
  unfold titleMatch at h
  split_ifs with h1 h2 h3 h4 <;> simp_all

theorem applyEntity_title_of_match {f : Fields} {e : EntityInfo}
    (hm : titleMatch e = true) (hf : fieldTruthy f.title = false) :
    (applyEntity f e).title = some e.token := by
  simp only [applyEntity]
  unfold titleMatch at hm
  rw [if_pos (by simp [hm, hf])]

theorem foldl_title_of_truthy (ents : List EntityInfo) :
    ∀ f : Fields, fieldTruthy f.title = true →
      (ents.foldl applyEntity f).title = f.title := by
  induction ents with
  | nil => intro f _; rfl
  | cons e rest ih =>
    intro f hf
    have he := applyEntity_title_of_truthy (e := e) hf
    simp only [List.foldl_cons]
    rw [ih _ (by rw [he]; exact hf), he]

theorem foldl_assignee_of_truthy (ents : List EntityInfo) :
    ∀ f : Fields, fieldTruthy f.assignee = true →
      (ents.foldl applyEntity f).assignee = f.assignee := by
  induction ents with
  | nil => intro f _; rfl
  | cons e rest ih =>
    intro f hf
    have he := applyEntity_assignee_of_truthy (e := e) hf
    simp only [List.foldl_cons]
    rw [ih _ (by rw [he]; exact hf), he]

theorem foldl_deadline_of_truthy (ents : List EntityInfo) :
    ∀ f : Fields, fieldTruthy f.deadline = true →
      (ents.foldl applyEntity f).deadline = f.deadline := by
  induction ents with
  | nil => intro f _; rfl
  | cons e rest ih =>
    intro f hf
    have he := applyEntity_deadline_of_truthy (e := e) hf
    simp only [List.foldl_cons]
    rw [ih _ (by rw [he]; exact hf), he]

theorem foldl_priority_of_truthy (ents : List EntityInfo) :
    ∀ f : Fields, fieldTruthy f.priority = true →
      (ents.foldl applyEntity f).priority = f.priority := by
  induction ents with
  | nil => intro f _; rfl
  | cons e rest ih =>
    intro f hf
    have he := applyEntity_priority_of_truthy (e := e) hf
    simp only [List.foldl_cons]
    rw [ih _ (by rw [he]; exact hf), he]

theorem foldl_title_characterization (ents : List EntityInfo) :
    ∀ f : Fields, fieldTruthy f.title = false →
      (ents.foldl applyEntity f).title =
        (match ents.find? (fun e => titleMatch e && e.token ≠ "") with
         | some e => some e.token
         | none => if ents.any titleMatch then some "" else f.title) := by
  induction ents with
  | nil => intro f _; rfl
  | cons e rest ih =>
    intro f hf
    simp only [List.foldl_cons, List.find?, List.any_cons]
    rcases Bool.eq_false_or_eq_true (titleMatch e) with hm | hm
    · have ht := applyEntity_title_of_match hm hf
      by_cases htok : e.token = ""
      · have hpred : (titleMatch e && decide (e.token ≠ "")) = false := by simp [hm, htok]
        have hor : (titleMatch e || rest.any titleMatch) = true := by simp [hm]
        simp only [hpred, hor, if_true]
        have hf' : fieldTruthy (applyEntity f e).title = false := by
          rw [ht, htok]; decide
        rw [ih _ hf', ht, htok]
        cases rest.find? (fun e => titleMatch e && e.token ≠ "") with
        | some e' => rfl
        | none => by_cases hb : rest.any titleMatch = true <;> simp [hb]
      · have hpred : (titleMatch e && decide (e.token ≠ "")) = true := by simp [hm, htok]
        simp only [hpred]
        have hf' : fieldTruthy (applyEntity f e).title = true := by
          rw [ht]; simpa [fieldTruthy] using htok
        rw [foldl_title_of_truthy _ _ hf', ht]
    · have ht := applyEntity_title_of_not_match (f := f) hm
      have hpred : (titleMatch e && decide (e.token ≠ "")) = false := by simp [hm]
      have hor : (titleMatch e || rest.any titleMatch) = rest.any titleMatch := by
        simp [hm]
      simp only [hpred, hor]
      rw [ih _ (by rw [ht]; exact hf), ht]

/-- C8, as amended: entities are scanned in recognizer order through an
`if`/`elif` chain with precedence TITLE > ASSIGNEE > DEADLINE > PRIORITY,
matching by substring containment on the uppercased label; a field is
assigned only while its current value is Python-falsy (`None` or `""`),
so a field holding a non-empty token is never overwritten, and the title
field ends with the token of the first TITLE-matching entity that carries
a non-empty token (an empty-string token does not protect the field and
may be overwritten by a later match). -/
theorem c8_field_mapping :
    (∀ (ents : List EntityInfo) (f : Fields),
      (fieldTruthy f.title = true → (ents.foldl applyEntity f).title = f.title) ∧
      (fieldTruthy f.assignee = true → (ents.foldl applyEntity f).assignee = f.assignee) ∧
      (fieldTruthy f.deadline = true → (ents.foldl applyEntity f).deadline = f.deadline) ∧
      (fieldTruthy f.priority = true → (ents.foldl applyEntity f).priority = f.priority)) ∧
    (∀ ents : List EntityInfo, (mapEntities ents).title = specTitle ents) := by
  refine ⟨fun ents f => ⟨foldl_title_of_truthy ents f, foldl_assignee_of_truthy ents f,
    foldl_deadline_of_truthy ents f, foldl_priority_of_truthy ents f⟩, fun ents => ?_⟩
  unfold mapEntities specTitle
  rw [foldl_title_characterization ents ⟨none, none, none, none⟩ rfl]

/-- C8 counterexample: with a first `TITLE` entity carrying the empty
token and a second carrying `"foo"`, the title field ends as `"foo"` —
the value set by the first matching entity is overwritten, contradicting
the claim that a field, once set, is never overwritten and holds the first
matching entity's token. -/
theorem c8_counterexample :
    titleMatch ⟨"TITLE", "", 1, 0, 1⟩ = true ∧
    (mapEntities [⟨"TITLE", "", 1, 0, 1⟩, ⟨"TITLE", "foo", 1, 1, 2⟩]).title = some "foo" ∧
    (okResult (extractTask mDup stW "hello" "chat" true)).map
        (fun r => alookup "title" r.taskInfo) = some (some (.pystr "foo")) ∧
    ("foo" : String) ≠ "" := by
  refine ⟨by decide, by decide, ?_, by decide⟩
  simp [extractTask, mDup, stW, computeResult, bertClassify, classOf,
    nerExtractEntities, cacheKeyOf, lruEmpty, lruGet, lruSet, alookup, entityMean,
    mkTaskInfo, optToPy, descOf, validateTask, requiredFields,
    List.find?, okResult, Except.toOption,
    show pyStripEmpty "hello" = false from by decide,
    show ¬ ("hello".length < 3) from by decide,
    show mapEntities [⟨"TITLE", "", 1, 0, 1⟩, ⟨"TITLE", "foo", 1, 1, 2⟩]
        = ⟨some "foo", none, none, none⟩ from by decide]
  norm_num
  simp [alookup]

/-- C8 witness: the amended statement evaluated on the duplicate-title
entity list. -/
theorem c8_witness :
    (mapEntities [⟨"TITLE", "", 1, 0, 1⟩, ⟨"TITLE", "foo", 1, 1, 2⟩]).title =
      specTitle [⟨"TITLE", "", 1, 0, 1⟩, ⟨"TITLE", "foo", 1, 1, 2⟩] ∧
    (([⟨"OTHER", "x", 1, 0, 1⟩] : List EntityInfo).foldl applyEntity
        ⟨some "kept", none, none, none⟩).title = some "kept" :=
  ⟨c8_field_mapping.2 _, (c8_field_mapping.1 _ _).1 (by decide)⟩

/-! # Claim C5 -/

theorem map_tail_eq {α β : Type} (f : α → β) (l : List α) :
    (l.map f).tail = l.tail.map f := by
  cases l <;> simp

theorem filter_lt_of_alookup_isSome {β : Type} {k : String} {l : List (String × β)}
    (h : (alookup k l).isSome = true) :
    (l.filter (fun p => p.1 ≠ k)).length < l.length := by
  induction l with
  | nil => simp [alookup] at h
  | cons p rest ih =>
    obtain ⟨k2, v⟩ := p
    by_cases hk : k2 = k
    · subst hk
      have hfc : ((⟨k2, v⟩ :: rest : List (String × β)).filter (fun p => p.1 ≠ k2)) =
          rest.filter (fun p => p.1 ≠ k2) := by
        simp [List.filter_cons]
      rw [hfc]
      calc (rest.filter (fun p => p.1 ≠ k2)).length ≤ rest.length :=
            List.length_filter_le _ _
        _ < (⟨k2, v⟩ :: rest : List (String × β)).length := by simp
    · simp only [alookup, hk, if_false] at h
      have hlt := ih h
      simp only [List.filter_cons, ne_eq, decide_not] at hlt ⊢
      split <;> simp <;> omega

theorem lruStep_capacity {β : Type} (c : LRUCache β) (op : LRUOp β) :
    (lruStep c op).capacity = c.capacity := by
  cases op with
  | get k =>
    simp only [lruStep, lruGet]
    cases alookup k c.cacheMap <;> simp
  | set k v =>
    simp only [lruStep, lruSet]
    split
    · simp
    · split
      · cases hm : c.cacheMap <;> simp
      · simp

theorem lruStep_length {β : Type} (c : LRUCache β) (op : LRUOp β)
    (h : c.cacheMap.length ≤ c.capacity) :
    (lruStep c op).cacheMap.length ≤ c.capacity := by
  cases op with
  | get k =>
    simp only [lruStep, lruGet]
    cases hg : alookup k c.cacheMap with
    | none => simpa using h
    | some v =>
      simp only
      have := filter_lt_of_alookup_isSome (k := k) (l := c.cacheMap) (by simp [hg])
      simp only [List.length_append, List.length_singleton]
      omega
  | set k v =>
    simp only [lruStep, lruSet]
    by_cases hs : (alookup k c.cacheMap).isSome = true
    · rw [if_pos hs]
      have := filter_lt_of_alookup_isSome hs
      simp only [Option.getD_some, List.length_append, List.length_singleton]
      omega
    · rw [if_neg hs]
      by_cases hcap : c.capacity ≤ c.cacheMap.length
      · rw [if_pos hcap]
        cases hm : c.cacheMap with
        | nil => simp [hm]
        | cons p rest =>
          simp only [Option.getD_some, List.length_append, List.length_singleton]
          rw [hm] at h
          simp at h
          omega
      · rw [if_neg hcap]
        simp only [Option.getD_some, List.length_append, List.length_singleton]
        omega

theorem lruRun_length {β : Type} (ops : List (LRUOp β)) :
    ∀ c0 : LRUCache β, c0.cacheMap.length ≤ c0.capacity →
      (lruRun c0 ops).cacheMap.length ≤ c0.capacity := by
  induction ops with
  | nil => intro c0 h; simpa [lruRun] using h
  | cons op rest ih =>
    intro c0 h
    have h1 := lruStep_length c0 op h
    have h2 := lruStep_capacity c0 op
    have := ih (lruStep c0 op) (by rw [h2]; exact h1)
    rw [h2] at this
    simpa [lruRun] using this

theorem alookup_window_of_not_mem {β : Type} {cap : Nat} {f : String → β} {done : List String}
    {k : String} (hk : k ∉ done) : alookup k (window cap f done) = none := by
  rw [alookup_eq_none_iff]
  intro hc
  simp only [window, List.map_map] at hc
  obtain ⟨x, hx, hxk⟩ := List.mem_map.mp hc
  exact hk (hxk ▸ List.mem_of_mem_drop hx)

theorem window_snoc {β : Type} (cap : Nat) (f : String → β) (done : List String)
    (k : String) (hk : k ∉ done) :
    (lruSet ⟨cap, window cap f done⟩ k (f k)).getD ⟨cap, window cap f done⟩ =
      ⟨cap, window cap f (done ++ [k])⟩ := by
  have hlk : alookup k (window cap f done) = none := alookup_window_of_not_mem hk
  have hwl : (window cap f done).length = done.length - (done.length - cap) := by
    simp [window]
  rw [lruSet]
  rw [if_neg (by simp [hlk])]
  by_cases hcap : done.length < cap
  · rw [if_neg (by simp only [LRUCache.cacheMap]; omega)]
    have h0 : done.length - cap = 0 := by omega
    have h1 : done.length + 1 - cap = 0 := by omega
    simp only [Option.getD_some, window, h0, List.drop_zero, LRUCache.mk.injEq, true_and]
    simp [h1]
  · push_neg at hcap
    by_cases hc0 : cap = 0
    · have hwin : window cap f done = [] := by
        simp [window, hc0, List.drop_length]
      rw [if_pos (by simp only [LRUCache.cacheMap]; omega)]
      simp only [hwin]
      simp only [Option.getD_none]
      have hw2 : window cap f (done ++ [k]) = [] := by
        simp [window, hc0, List.drop_length]
      rw [hw2]
    · rw [if_pos (by simp only [LRUCache.cacheMap]; omega)]
      have hlen : (window cap f done).length = cap := by omega
      cases hwin : window cap f done with
      | nil => rw [hwin] at hlen; simp at hlen; omega
      | cons p rest =>
        simp only [Option.getD_some, LRUCache.mk.injEq, true_and]
        have hrest : rest = (done.drop (done.length + 1 - cap)).map (fun k => (k, f k)) := by
          have := congrArg List.tail hwin
          simp only [List.tail_cons] at this
          rw [← this]
          simp only [window, map_tail_eq, List.tail_drop]
          have : done.length - cap + 1 = done.length + 1 - cap := by omega
          rw [this]
        rw [hrest]
        simp only [window]
        have hlen2 : (done ++ [k]).length - cap = done.length + 1 - cap := by
          simp
        rw [hlen2,
          List.drop_append_of_le_length (by omega), List.map_append]
        simp

theorem lruRun_insertAll {β : Type} (cap : Nat) (f : String → β) :
    ∀ (ks done : List String), (done ++ ks).Nodup →
      lruRun ⟨cap, window cap f done⟩ (ks.map (fun k => LRUOp.set k (f k))) =
        ⟨cap, window cap f (done ++ ks)⟩ := by
  intro ks
  induction ks with
  | nil => intro done h; simp [lruRun]
  | cons k rest ih =>
    intro done h
    have hk : k ∉ done := by
      intro hc
      have hd := List.disjoint_of_nodup_append h
      exact hd hc (List.mem_cons_self _ _)
    simp only [List.map_cons, lruRun, List.foldl_cons]
    have hstep : lruStep ⟨cap, window cap f done⟩ (LRUOp.set k (f k)) =
        ⟨cap, window cap f (done ++ [k])⟩ := by
      simp only [lruStep]
      exact window_snoc cap f done k hk
    rw [hstep]
    have h2 : ((done ++ [k]) ++ rest).Nodup := by
      simpa [List.append_assoc] using h
    have := ih (done ++ [k]) h2
    simp only [lruRun] at this
    rw [this]
    simp [List.append_assoc]

/-- C5: (i) after any sequence of `get`/`set` operations starting from a
state within capacity, the cache never holds more than `capacity` entries
(a `KeyError` from `popitem` on an empty `OrderedDict` leaves the state
unchanged); (ii) inserting any number of distinct keys into a fresh cache
leaves exactly the `capacity` most recently used keys, in recency order —
in particular `capacity + k` distinct inserts keep the last `capacity`
keys, the least-recently-used entry being evicted on each overflow. -/
theorem c5_lru_bounded_eviction {β : Type} :
    (∀ (c0 : LRUCache β) (ops : List (LRUOp β)), c0.cacheMap.length ≤ c0.capacity →
      (lruRun c0 ops).cacheMap.length ≤ c0.capacity) ∧
    (∀ (cap : Nat) (f : String → β) (ks : List String), ks.Nodup →
      lruRun (lruEmpty β cap) (ks.map (fun k => LRUOp.set k (f k))) =
        ⟨cap, window cap f ks⟩) := by
  constructor
  · intro c0 ops h
    exact lruRun_length ops c0 h
  · intro cap f ks h
    have : lruEmpty β cap = ⟨cap, window cap f []⟩ := by simp [lruEmpty, window]
    rw [this]
    have := lruRun_insertAll cap f ks [] (by simpa using h)
    simpa using this

/-- C5 witness: capacity 2, three distinct keys inserted — the two most
recent remain; and the size bound evaluated on a concrete op sequence. -/
theorem c5_witness :
    lruRun (lruEmpty Nat 2)
        (["a", "b", "c"].map (fun k => LRUOp.set k ((fun _ => 7) k))) =
      ⟨2, window 2 (fun _ => 7) ["a", "b", "c"]⟩ ∧
    (lruRun (lruEmpty Nat 2) [LRUOp.get "a", LRUOp.set "x" 1]).cacheMap.length ≤
      (lruEmpty Nat 2).capacity :=
  ⟨(c5_lru_bounded_eviction.2) 2 (fun _ => 7) ["a", "b", "c"] (by decide),
   (c5_lru_bounded_eviction.1) (lruEmpty Nat 2) [LRUOp.get "a", LRUOp.set "x" 1]
     (by decide)⟩

/-! # Claim C3 -/

theorem enumFromWith_append (g : String → ResultData) (c : List String) :
    ∀ (s : Nat) (rest : List String),
      enumFromWith g s (c ++ rest) =
        enumFromWith g s c ++ enumFromWith g (s + c.length) rest := by
  induction c with
  | nil => intro s rest; simp [enumFromWith]
  | cons x xs ih =>
    intro s rest
    simp only [List.cons_append, enumFromWith, List.length_cons, List.append_eq]
    rw [ih (s + 1) rest]
    have harith : s + 1 + xs.length = s + (xs.length + 1) := by omega
    rw [harith]

theorem batchWorker_ok (itemFn : String → Except PyErr ResultData) (g : String → ResultData) :
    ∀ c : List String, (∀ t ∈ c, itemFn t = .ok (g t)) →
      ∀ s, batchWorker itemFn s c = .ok (enumFromWith g s c) := by
  intro c
  induction c with
  | nil => intro _ s; rfl
  | cons t ts ih =>
    intro h s
    have hts := ih (fun t2 ht2 => h t2 (List.mem_cons_of_mem t ht2)) (s + 1)
    simp [batchWorker, enumFromWith, h t (List.mem_cons_self t ts), hts]

theorem chunker_flatten (g : String → ResultData) (bs : Nat) (hbs : bs ≠ 0) :
    ∀ (n : Nat) (texts : List String) (start : Nat), texts.length ≤ n →
      ((chunker bs start texts).map (fun sc => enumFromWith g sc.1 sc.2)).flatten =
        enumFromWith g start texts := by
  intro n
  induction n with
  | zero =>
    intro texts start h
    have : texts = [] := List.length_eq_zero.mp (Nat.le_zero.mp h)
    subst this
    simp [chunker, enumFromWith]
  | succ n ih =>
    intro texts start h
    cases texts with
    | nil => simp [chunker, enumFromWith]
    | cons x xs =>
      rw [chunker]
      simp only [List.map_cons, List.flatten_cons]
      have hrec : (xs.drop (bs - 1)).length ≤ n := by
        simp only [List.length_drop]
        simp only [List.length_cons] at h
        omega
      rw [ih (xs.drop (bs - 1)) (start + bs) hrec]
      by_cases hx : xs.length ≤ bs - 1
      · have hdrop : xs.drop (bs - 1) = [] := List.drop_eq_nil_of_le hx
        have htake : xs.take (bs - 1) = xs := List.take_of_length_le hx
        rw [hdrop, htake]
        simp [enumFromWith]
      · push_neg at hx
        have hsplit : (x :: xs : List String) = (x :: xs.take (bs - 1)) ++ xs.drop (bs - 1) := by
          simp [List.take_append_drop]
        conv_rhs => rw [hsplit]
        rw [enumFromWith_append]
        have hlen : (x :: xs.take (bs - 1)).length = bs := by
          simp only [List.length_cons, List.length_take]
          omega
        rw [hlen]

theorem chunker_chunk_subset (bs : Nat) :
    ∀ (n : Nat) (texts : List String) (start : Nat), texts.length ≤ n →
      ∀ sc ∈ chunker bs start texts, ∀ t ∈ sc.2, t ∈ texts := by
  intro n
  induction n with
  | zero =>
    intro texts start h
    have : texts = [] := List.length_eq_zero.mp (Nat.le_zero.mp h)
    subst this
    simp [chunker]
  | succ n ih =>
    intro texts start h
    cases texts with
    | nil => simp [chunker]
    | cons x xs =>
      rw [chunker]
      intro sc hsc t ht
      rcases List.mem_cons.mp hsc with rfl | hsc2
      · rcases List.mem_cons.mp ht with rfl | ht2
        · exact List.mem_cons_self _ _
        · exact List.mem_cons_of_mem _ (List.take_subset _ _ ht2)
      · have hrec : (xs.drop (bs - 1)).length ≤ n := by
          simp only [List.length_drop]
          simp only [List.length_cons] at h
          omega
        have hmem := ih (xs.drop (bs - 1)) (start + bs) hrec sc hsc2 t ht
        exact List.mem_cons_of_mem _ (List.drop_subset _ _ hmem)

theorem filterMap_get?_range {α : Type} (l : List α) :
    (List.range l.length).filterMap l.get? = l := by
  induction l using List.reverseRecOn with
  | nil => simp
  | append_singleton l a ih =>
    rw [List.length_append, List.length_singleton, List.range_succ,
      List.filterMap_append]
    have h1 : (List.range l.length).filterMap (l ++ [a]).get? =
        (List.range l.length).filterMap l.get? := by
      refine List.filterMap_congr ?_
      intro i hi
      exact List.get?_append (List.mem_range.mp hi)
    rw [h1, ih]
    simp [List.get?_concat_length]

theorem collectAll_payloads :
    ∀ xs : List (Except PyErr (List (Nat × ResultData))),
      (∀ x ∈ xs, ∃ l, x = .ok l) →
      ∃ ls : List (List (Nat × ResultData)),
        xs = ls.map Except.ok ∧ collectAll xs = .ok ls.flatten := by
  intro xs
  induction xs with
  | nil => intro _; exact ⟨[], rfl, rfl⟩
  | cons x rest ih =>
    intro h
    obtain ⟨l, rfl⟩ := h x (List.mem_cons_self x rest)
    obtain ⟨ls, hrest, hcoll⟩ := ih (fun y hy => h y (List.mem_cons_of_mem _ hy))
    refine ⟨l :: ls, by rw [hrest]; rfl, ?_⟩
    simp [collectAll, hcoll]

theorem map_fst_enumFromWith (g : String → ResultData) :
    ∀ (texts : List String) (s : Nat),
      (enumFromWith g s texts).map Prod.fst = List.range' s texts.length := by
  intro texts
  induction texts with
  | nil => intro s; rfl
  | cons x xs ih =>
    intro s
    simp [enumFromWith, List.range', ih (s + 1)]

theorem alookup_enumFromWith (g : String → ResultData) :
    ∀ (texts : List String) (s j : Nat) (h : j < texts.length),
      alookup (s + j) (enumFromWith g s texts) = some (g (texts.get ⟨j, h⟩)) := by
  intro texts
  induction texts with
  | nil => intro s j h; simp at h
  | cons x xs ih =>
    intro s j h
    cases j with
    | zero => simp [enumFromWith, alookup]
    | succ j2 =>
      have hne : s ≠ s + (j2 + 1) := by omega
      simp only [enumFromWith, alookup, if_neg hne]
      have h2 : j2 < xs.length := by simpa using h
      have := ih (s + 1) j2 h2
      rw [show s + (j2 + 1) = s + 1 + j2 by omega]
      rw [this]
      rfl

theorem foldl_set_length {α : Type} :
    ∀ (pairs : List (Nat × α)) (l0 : List (Option α)),
      (pairs.foldl (fun acc p => acc.set p.1 (some p.2)) l0).length = l0.length := by
  intro pairs
  induction pairs with
  | nil => intro l0; rfl
  | cons p rest ih =>
    intro l0
    simp [List.foldl_cons, ih, List.length_set]

theorem assemble_get? {α : Type} :
    ∀ (pairs : List (Nat × α)) (l0 : List (Option α)) (j : Nat),
      (pairs.map Prod.fst).Nodup → j < l0.length →
      (pairs.foldl (fun acc p => acc.set p.1 (some p.2)) l0)[j]? =
        (match alookup j pairs with
         | some v => some (some v)
         | none => l0[j]?) := by
  intro pairs
  induction pairs with
  | nil => intro l0 j _ _; simp [alookup]
  | cons p rest ih =>
    obtain ⟨i, v⟩ := p
    intro l0 j nd hj
    simp only [List.map_cons, List.nodup_cons] at nd
    simp only [List.foldl_cons]
    rw [ih (l0.set i (some v)) j nd.2 (by simpa [List.length_set] using hj)]
    by_cases hij : i = j
    · subst hij
      have hnone : alookup i rest = none := (alookup_eq_none_iff i rest).mpr nd.1
      rw [hnone]
      simp only [alookup, if_pos rfl]
      simp [List.getElem?_set_eq_of_lt, hj]
    · have hhd : alookup j ((i, v) :: rest) = alookup j rest := by
        simp [alookup, hij]
      rw [hhd]
      cases alookup j rest with
      | some w => rfl
      | none => simp [List.getElem?_set_ne hij]

/-- C3: whenever every item of the batch succeeds, `batch_extract_tasks`
returns a list of exactly `len(texts)` results whose `i`-th entry is the
extraction result of `texts[i]`, for every completion order of the chunk
futures; moreover the collected `(index, result)` pairs cover each global
index exactly once — results are written once at their original index,
never appended. -/
theorem c3_batch_order (itemFn : String → Except PyErr ResultData)
    (g : String → ResultData) (texts : List String) (batchSize : Nat) (order : List Nat)
    (hbs : batchSize ≠ 0)
    (hord : order.Perm (List.range (chunker batchSize 0 texts).length))
    (hok : ∀ t ∈ texts, itemFn t = .ok (g t)) :
    batchExtractTasks itemFn texts batchSize order =
      .ok (texts.map (fun t => some (g t))) ∧
    ∃ pairs, batchCollect itemFn texts batchSize order = .ok pairs ∧
      (pairs.map Prod.fst).Perm (List.range texts.length) := by
  have hworker : ∀ sc ∈ chunker batchSize 0 texts,
      batchWorker itemFn sc.1 sc.2 = .ok (enumFromWith g sc.1 sc.2) := by
    intro sc hsc
    exact batchWorker_ok itemFn g sc.2
      (fun t ht => hok t (chunker_chunk_subset batchSize texts.length texts 0 le_rfl sc hsc t ht))
      sc.1
  have hfutures : (chunker batchSize 0 texts).map (fun sc => batchWorker itemFn sc.1 sc.2) =
      ((chunker batchSize 0 texts).map (fun sc => enumFromWith g sc.1 sc.2)).map Except.ok := by
    rw [List.map_map]
    exact List.map_congr_left (fun sc hsc => by simp [hworker sc hsc])
  have hlenf : ((chunker batchSize 0 texts).map
      (fun sc => batchWorker itemFn sc.1 sc.2)).length = (chunker batchSize 0 texts).length := by
    simp
  have hpermxs : (order.filterMap ((chunker batchSize 0 texts).map
        (fun sc => batchWorker itemFn sc.1 sc.2)).get?).Perm
      ((chunker batchSize 0 texts).map (fun sc => batchWorker itemFn sc.1 sc.2)) := by
    have h1 := (hord.filterMap ((chunker batchSize 0 texts).map
      (fun sc => batchWorker itemFn sc.1 sc.2)).get?)
    rw [show List.range (chunker batchSize 0 texts).length =
        List.range ((chunker batchSize 0 texts).map
          (fun sc => batchWorker itemFn sc.1 sc.2)).length from by rw [hlenf]] at h1
    rwa [filterMap_get?_range] at h1
  have hallok : ∀ x ∈ order.filterMap ((chunker batchSize 0 texts).map
      (fun sc => batchWorker itemFn sc.1 sc.2)).get?, ∃ l, x = .ok l := by
    intro x hx
    have hx2 := hpermxs.mem_iff.mp hx
    rw [hfutures] at hx2
    obtain ⟨l, _, rfl⟩ := List.mem_map.mp hx2
    exact ⟨l, rfl⟩
  obtain ⟨ls, hxs, hcoll⟩ := collectAll_payloads _ hallok
  have hflat : ((chunker batchSize 0 texts).map
      (fun sc => enumFromWith g sc.1 sc.2)).flatten = enumFromWith g 0 texts :=
    chunker_flatten g batchSize hbs texts.length texts 0 le_rfl
  have hunok : ∀ zs : List (List (Nat × ResultData)),
      (zs.map Except.ok).filterMap
        (fun e : Except PyErr (List (Nat × ResultData)) =>
          match e with | .ok l => some l | .error _ => none) = zs := by
    intro zs
    induction zs with
    | nil => rfl
    | cons z zrest ihz => simp [List.filterMap_cons, ihz]
  have hlsperm : ls.Perm ((chunker batchSize 0 texts).map
      (fun sc => enumFromWith g sc.1 sc.2)) := by
    have h2 := hpermxs
    rw [hxs, hfutures] at h2
    have h3 := h2.filterMap (fun e : Except PyErr (List (Nat × ResultData)) =>
      match e with | .ok l => some l | .error _ => none)
    rwa [hunok, hunok] at h3
  have hpairsperm : ls.flatten.Perm (enumFromWith g 0 texts) := by
    rw [← hflat]
    exact hlsperm.join
  have hfst : (enumFromWith g 0 texts).map Prod.fst = List.range texts.length := by
    rw [map_fst_enumFromWith, List.range_eq_range']
  have hfstperm : (ls.flatten.map Prod.fst).Perm (List.range texts.length) := by
    rw [← hfst]
    exact hpairsperm.map Prod.fst
  have hnodup : (ls.flatten.map Prod.fst).Nodup :=
    (hfstperm.nodup_iff).mpr (List.nodup_range _)
  have hcollect : batchCollect itemFn texts batchSize order = .ok ls.flatten := by
    simp only [batchCollect]
    exact hcoll
  refine ⟨?_, ls.flatten, hcollect, hfstperm⟩
  unfold batchExtractTasks
  rw [if_neg hbs, hcollect]
  rw [show (match (Except.ok ls.flatten :
        Except PyErr (List (Nat × ResultData))) with
      | Except.error e => Except.error e
      | Except.ok pairs => Except.ok (assemble texts.length pairs)) =
      Except.ok (assemble texts.length ls.flatten) from rfl]
  congr 1
  have hlookup : ∀ j (hj : j < texts.length),
      alookup j ls.flatten = some (g (texts.get ⟨j, hj⟩)) := by
    intro j hj
    rw [alookup_perm hpairsperm hnodup j]
    have := alookup_enumFromWith g texts 0 j hj
    simpa using this
  have hlena : (assemble texts.length ls.flatten).length = texts.length := by
    simp [assemble, foldl_set_length]
  refine List.ext_getElem? ?_
  intro j
  by_cases hj : j < texts.length
  · rw [show (assemble texts.length ls.flatten)[j]? =
        (ls.flatten.foldl (fun acc p => acc.set p.1 (some p.2))
          (List.replicate texts.length none))[j]? from rfl]
    rw [assemble_get? ls.flatten _ j hnodup (by simpa using hj)]
    rw [hlookup j hj]
    rw [List.getElem?_map]
    rw [List.getElem?_eq_getElem hj]
    simp [List.get_eq_getElem]
  · push_neg at hj
    have h1 : (assemble texts.length ls.flatten)[j]? = none := by
      apply List.getElem?_eq_none
      rw [hlena]
      exact hj
    have h2 : (texts.map (fun t => some (g t)))[j]? = none := by
      apply List.getElem?_eq_none
      simpa using hj
    rw [h1, h2]

/-- C3 witness: three items in two chunks, futures completing in reverse
order, every item succeeding. -/
theorem c3_witness :
    batchExtractTasks (fun _ => .ok rStub) ["a", "b", "c"] 2 [1, 0] =
      .ok (["a", "b", "c"].map (fun _ => some rStub)) ∧
    ∃ pairs, batchCollect (fun _ => .ok rStub) ["a", "b", "c"] 2 [1, 0] = .ok pairs ∧
      (pairs.map Prod.fst).Perm (List.range (["a", "b", "c"] : List String).length) :=
  c3_batch_order (fun _ => .ok rStub) (fun _ => rStub) ["a", "b", "c"] 2 [1, 0]
    (by decide) (by simp [chunker]; decide) (fun _ _ => rfl)

/-! # Claim C2 -/

/-- C2: evaluated on a batch of 5 where the item at index 2 raises.
`CommunicationProcessor.batch_process` isolates the failure — 5 slots,
index 2 an error marker, the others populated.  But
`TaskExtractor.batch_extract_tasks` does not: its chunk worker has no
exception handler, so the exception aborts the remaining items of the
chunk and propagates out of the whole call instead of yielding 5 results.
The claim's failure-isolation requirement therefore does not hold for
`batch_extract_tasks` (the specification itself flags this as a defect of
the reference implementation). -/
theorem c2_failure_isolation :
    batchExtractTasks itemErr2 ["t0", "t1", "t2", "t3", "t4"] 5 [0] =
      .error (.runtimeError "boom") ∧
    batchProcess procErr2 ["t0", "t1", "t2", "t3", "t4"] "chat" 5 =
      .ok [some (.ok pcStub), some (.ok pcStub), some (.err "boom"),
           some (.ok pcStub), some (.ok pcStub)] := by
  constructor
  · simp [batchExtractTasks, batchCollect, chunker, batchWorker, collectAll,
      itemErr2, rStub]
  · simp [batchProcess, chunker, processChunk, processOneItem, procErr2,
      assemble, show pyStripEmpty "chat" = false from by decide]

/-! # Claim C6 -/

theorem linearSleepsFrom_succ (bk : ℚ) (n0 f : Nat) :
    linearSleepsFrom bk n0 (f + 1) =
      bk * ((n0 + 1 : Nat) : ℚ) :: linearSleepsFrom bk (n0 + 1) f := by
  unfold linearSleepsFrom
  rw [List.range_succ_eq_map, List.map_cons, List.map_map]
  have hhead : bk * ((n0 + 0 + 1 : Nat) : ℚ) = bk * ((n0 + 1 : Nat) : ℚ) := by
    norm_num
  have htail : List.map ((fun i => bk * ((n0 + i + 1 : Nat) : ℚ)) ∘ Nat.succ)
        (List.range f) =
      List.map (fun i => bk * ((n0 + 1 + i + 1 : Nat) : ℚ)) (List.range f) := by
    apply List.map_congr_left
    intro i _
    simp only [Function.comp_apply]
    push_cast
    ring
  rw [hhead, htail]

theorem pcAux_success (A : Nat → Except String Bundle) (maxA : Nat) (bk et tt : ℚ) :
    ∀ (f rem n0 : Nat) (le : Option String) (sl : List ℚ) (b : Bundle),
      f < rem →
      (∀ i, i < f → ∃ e, A (n0 + i + 1) = .error e) →
      A (n0 + f + 1) = .ok b →
      pcAux A maxA bk et tt n0 rem le sl =
        ⟨.ok b, sl ++ (if 0 < bk then linearSleepsFrom bk n0 f else []), n0 + f + 1,
         if b.taskExtraction.finalConfidence < max et tt then
           [b.taskExtraction.finalConfidence] else []⟩ := by
  intro f
  induction f with
  | zero =>
    intro rem n0 le sl b hlt _ hs
    cases rem with
    | zero => omega
    | succ r =>
      rw [pcAux]
      rw [show n0 + 0 + 1 = n0 + 1 from by omega] at hs
      rw [hs]
      simp [linearSleepsFrom]
  | succ f ih =>
    intro rem n0 le sl b hlt hfail hs
    cases rem with
    | zero => omega
    | succ r =>
      rw [pcAux]
      obtain ⟨e, he⟩ := hfail 0 (Nat.succ_pos f)
      rw [show n0 + 0 + 1 = n0 + 1 from by omega] at he
      rw [he]
      simp only
      have hr : 0 < r := by omega
      have hrec := ih r (n0 + 1) (some e)
        (if 0 < r ∧ 0 < bk then sl ++ [bk * ((n0 + 1 : Nat) : ℚ)] else sl) b
        (by omega)
        (fun i hi => by
          obtain ⟨e2, he2⟩ := hfail (i + 1) (by omega)
          exact ⟨e2, by rw [show n0 + 1 + i + 1 = n0 + (i + 1) + 1 from by omega]; exact he2⟩)
        (by rw [show n0 + 1 + f + 1 = n0 + (f + 1) + 1 from by omega]; exact hs)
      rw [hrec]
      have hn : n0 + 1 + f + 1 = n0 + (f + 1) + 1 := by omega
      rw [hn]
      by_cases hbk : 0 < bk
      · simp only [hr, hbk, and_true, if_pos, if_true, true_and]
        rw [List.append_assoc]
        rw [linearSleepsFrom_succ]
        rfl
      · simp [hbk, hr]

theorem pcAux_allfail (A : Nat → Except String Bundle) (maxA : Nat) (bk et tt : ℚ) :
    ∀ (rem n0 : Nat) (le : Option String) (sl : List ℚ) (E : Nat → String),
      (∀ i, i < rem → A (n0 + i + 1) = .error (E (n0 + i + 1))) →
      pcAux A maxA bk et tt n0 rem le sl =
        ⟨.error (aggMsg maxA (if rem = 0 then le else some (E (n0 + rem)))),
         sl ++ (if 0 < bk then linearSleepsFrom bk n0 (rem - 1) else []),
         n0 + rem, []⟩ := by
  intro rem
  induction rem with
  | zero =>
    intro n0 le sl E _
    rw [pcAux]
    simp [linearSleepsFrom]
  | succ r ih =>
    intro n0 le sl E hfail
    rw [pcAux]
    have he := hfail 0 (Nat.succ_pos r)
    rw [show n0 + 0 + 1 = n0 + 1 from by omega] at he
    rw [he]
    simp only
    have hrec := ih (n0 + 1) (some (E (n0 + 1)))
      (if 0 < r ∧ 0 < bk then sl ++ [bk * ((n0 + 1 : Nat) : ℚ)] else sl) E
      (fun i hi => by
        rw [show n0 + 1 + i + 1 = n0 + (i + 1) + 1 from by omega]
        exact hfail (i + 1) (by omega))
    rw [hrec]
    have hn : n0 + 1 + r = n0 + (r + 1) := by omega
    rw [hn]
    cases r with
    | zero =>
      simp [linearSleepsFrom]
    | succ r2 =>
      have h1 : ¬ (r2 + 1 = 0) := by omega
      have h2 : ¬ (r2 + 1 + 1 = 0) := by omega
      have h3 : (0 : Nat) < r2 + 1 := by omega
      by_cases hbk : 0 < bk
      · simp only [h1, h2, h3, hbk, true_and, and_true, if_true, if_false,
          Nat.succ_sub_one, List.append_assoc]
        rw [show [bk * ((n0 + 1 : Nat) : ℚ)] ++ linearSleepsFrom bk (n0 + 1) r2 =
            linearSleepsFrom bk n0 (r2 + 1) from by
          rw [linearSleepsFrom_succ, List.singleton_append]]
      · simp [h1, h2, h3, hbk]

/-- C6: in `process_communication`, low confidence only logs a warning —
the first successful attempt's bundle is returned regardless of its
`final_confidence`, retries happen only when an attempt raises, the delay
before the retry after failed attempt `i` is `backoff_factor * i` when
`backoff_factor > 0` (linear backoff, no delay otherwise), and after
`max_attempts` failing attempts an aggregated error carrying the last
underlying cause is raised. -/
theorem c6_retry_policy (A : Nat → Except String Bundle) (maxA : Nat) (bk et tt : ℚ)
    (text channel : String)
    (htext : pyStripEmpty text = false) (hch : pyStripEmpty channel = false) :
    (∀ (f : Nat) (b : Bundle), f < maxA →
      (∀ i, i < f → ∃ e, A (i + 1) = .error e) → A (f + 1) = .ok b →
      processCommunication A maxA bk et tt text channel =
        .ok ⟨.ok b, (if 0 < bk then linearSleepsFrom bk 0 f else []), f + 1,
          if b.taskExtraction.finalConfidence < max et tt then
            [b.taskExtraction.finalConfidence] else []⟩) ∧
    (∀ E : Nat → String, 1 ≤ maxA →
      (∀ i, i < maxA → A (i + 1) = .error (E (i + 1))) →
      processCommunication A maxA bk et tt text channel =
        .ok ⟨.error (aggMsg maxA (some (E maxA))),
          (if 0 < bk then linearSleepsFrom bk 0 (maxA - 1) else []), maxA, []⟩) := by
  constructor
  · intro f b hlt hfail hs
    unfold processCommunication
    rw [if_neg (by simp [htext]), if_neg (by simp [hch])]
    have := pcAux_success A maxA bk et tt f maxA 0 none [] b hlt
      (fun i hi => by simpa using hfail i hi) (by simpa using hs)
    rw [this]
    simp
  · intro E hmax hfail
    unfold processCommunication
    rw [if_neg (by simp [htext]), if_neg (by simp [hch])]
    have := pcAux_allfail A maxA bk et tt maxA 0 none [] E
      (fun i hi => by simpa using hfail i hi)
    rw [this]
    simp only [Nat.zero_add]
    rw [if_neg (by omega)]
    simp

/-- C6 witness: an attempt oracle failing twice then succeeding, with
`max_attempts = 3` and `backoff_factor = 1/10` (Scenario C). -/
theorem c6_witness :
    processCommunication attempt3 3 (1/10) (1/2) (3/5) "hello" "chat" =
      .ok ⟨.ok bStub, (if 0 < (1/10 : ℚ) then linearSleepsFrom (1/10) 0 2 else []), 3,
        if bStub.taskExtraction.finalConfidence < max (1/2 : ℚ) (3/5) then
          [bStub.taskExtraction.finalConfidence] else []⟩ :=
  (c6_retry_policy attempt3 3 (1/10) (1/2) (3/5) "hello" "chat"
      (by decide) (by decide)).1 2 bStub (by decide)
    (fun i hi => ⟨"fail" ++ toString (i + 1), by
      simp [attempt3, show i + 1 < 3 from by omega]⟩)
    (by rfl)

/-! # Claim C9 -/

/-- A first cached `extract_task` call (reference semantics) from a fresh
state allocates the computed dictionary at address 0 and caches that
address. -/
theorem extractTaskRef_first {m : Models} {cap : Nat} {thr : ℚ} {text fmt : String}
    {a1 : Nat} {c1 : LRUCache Nat} {s1 : List ResultData}
    (h : extractTaskRef m (lruEmpty Nat cap) [] thr text fmt true = .ok (a1, c1, s1)) :
    a1 = 0 ∧ s1 = [computedOf m thr text fmt] ∧
      alookup (cacheKeyOf fmt text) c1.cacheMap = some 0 := by
  unfold extractTaskRef at h
  simp only [lruEmpty, lruGet, alookup, if_true] at h
  cases hco : (computeResult m thr text fmt).2 with
  | error e => simp [hco] at h
  | ok r =>
    simp only [hco] at h
    have hr := computeResult_ok hco
    rw [lruSet] at h
    simp only [alookup, Option.isSome_none, Bool.false_eq_true, if_false,
      List.length_nil] at h
    by_cases hcap : cap ≤ 0
    · rw [if_pos hcap] at h
      simp at h
    · rw [if_neg hcap] at h
      simp only [List.nil_append, Except.ok.injEq, Prod.mk.injEq] at h
      obtain ⟨ha, hc, hs⟩ := h
      refine ⟨ha.symm, ?_, ?_⟩
      · rw [← hs, hr]
      · rw [← hc]
        simp [alookup]

/-- C9, as amended: the cache stores a reference to the very dictionary
object returned to the caller, not a copy.  After a first cached call
returns address `a1`, mutating the store through that address is visible
to the subsequent cache-hit call: it returns the same address, whose
dereferenced value is the mutated dictionary — not the originally stored
one whenever the mutation changed it. -/
theorem c9_cache_aliasing (m : Models) (cap : Nat) (thr : ℚ) (text fmt : String)
    (f : ResultData → ResultData)
    (a1 : Nat) (c1 : LRUCache Nat) (s1 : List ResultData)
    (h : extractTaskRef m (lruEmpty Nat cap) [] thr text fmt true = .ok (a1, c1, s1)) :
    extractTaskRef m c1 (mutateAt s1 a1 f) thr text fmt true =
      .ok (a1, (lruGet c1 (cacheKeyOf fmt text)).2, mutateAt s1 a1 f) ∧
    (mutateAt s1 a1 f).get? a1 = some (f (computedOf m thr text fmt)) ∧
    (f (computedOf m thr text fmt) ≠ computedOf m thr text fmt →
      (mutateAt s1 a1 f).get? a1 ≠ some (computedOf m thr text fmt)) := by
  obtain ⟨ha, hs, hl⟩ := extractTaskRef_first h
  subst ha
  subst hs
  have hmut : mutateAt [computedOf m thr text fmt] 0 f = [f (computedOf m thr text fmt)] := by
    simp [mutateAt]
  refine ⟨?_, ?_, ?_⟩
  · unfold extractTaskRef
    simp only [if_true]
    rw [show lruGet c1 (cacheKeyOf fmt text) =
        (some 0, (lruGet c1 (cacheKeyOf fmt text)).2) from by
      simp only [lruGet, hl]]
  · rw [hmut]
    rfl
  · intro hne
    rw [hmut]
    simp only [List.get?_cons_zero]
    exact fun hc => hne (Option.some.inj hc)

/-- Concrete first run under reference semantics: `mId` on
`("hello", "chat")` allocates `rW` at address 0. -/
theorem extractRef_mId_run :
    extractTaskRef mId (lruEmpty Nat 4) [] (1/2) "hello" "chat" true =
      .ok (0, ⟨4, [(cacheKeyOf "chat" "hello", 0)]⟩, [rW]) := by
  simp [extractTaskRef, mId, computeResult, bertClassify, classOf,
    nerExtractEntities, cacheKeyOf, lruEmpty, lruGet, lruSet, alookup, entityMean,
    mapEntities, mkTaskInfo, optToPy, descOf, validateTask, requiredFields,
    List.find?, rW,
    show pyStripEmpty "hello" = false from by decide,
    show ¬ ("hello".length < 3) from by decide]
  norm_num
  decide

/-- C9 counterexample: mutating the returned dictionary (setting its
`error` field to `"tampered"`) changes what the subsequent cache-hit call
for the same fingerprint dereferences — the cache did not store a copy. -/
theorem c9_counterexample :
    extractTaskRef mId (lruEmpty Nat 4) [] (1/2) "hello" "chat" true =
      .ok (0, ⟨4, [(cacheKeyOf "chat" "hello", 0)]⟩, [rW]) ∧
    mutateAt [rW] 0 (fun r => { r with error := "tampered" }) =
      [{ rW with error := "tampered" }] ∧
    extractTaskRef mId ⟨4, [(cacheKeyOf "chat" "hello", 0)]⟩
        [{ rW with error := "tampered" }] (1/2) "hello" "chat" true =
      .ok (0, ⟨4, [(cacheKeyOf "chat" "hello", 0)]⟩, [{ rW with error := "tampered" }]) ∧
    ({ rW with error := "tampered" } : ResultData) ≠ rW := by
  refine ⟨extractRef_mId_run, by simp [mutateAt], ?_, by simp [rW]⟩
  simp [extractTaskRef, lruGet, alookup, cacheKeyOf]

/-- C9 witness: the amended statement evaluated on the concrete run. -/
theorem c9_witness :
    extractTaskRef mId ⟨4, [(cacheKeyOf "chat" "hello", 0)]⟩
        (mutateAt [rW] 0 (fun r => { r with error := "tampered" }))
        (1/2) "hello" "chat" true =
      .ok (0, (lruGet ⟨4, [(cacheKeyOf "chat" "hello", 0)]⟩
        (cacheKeyOf "chat" "hello")).2,
        mutateAt [rW] 0 (fun r => { r with error := "tampered" })) ∧
    (mutateAt [rW] 0 (fun r => { r with error := "tampered" })).get? 0 =
      some ((fun r => { r with error := "tampered" })
        (computedOf mId (1/2) "hello" "chat")) ∧
    ((fun r => { r with error := "tampered" }) (computedOf mId (1/2) "hello" "chat") ≠
        computedOf mId (1/2) "hello" "chat" →
      (mutateAt [rW] 0 (fun r => { r with error := "tampered" })).get? 0 ≠
        some (computedOf mId (1/2) "hello" "chat")) :=
  c9_cache_aliasing mId 4 (1/2) "hello" "chat"
    (fun r => { r with error := "tampered" }) 0
    ⟨4, [(cacheKeyOf "chat" "hello", 0)]⟩ [rW] extractRef_mId_run

end TaskNLP
